import Mathlib

/-!
# Score systems and the score area layout

A shallow embedding of `source/score/system.cpp` (the `System` document model:
staves, barlines, tempo markers, alternate endings) and of
`source/app/scorearea.cpp` (rendering a document and redrawing one system),
followed by the properties proved about them.

Conventions of the embedding:

* a `std::vector<T>` is a `List T`; a pointer into a vector that may be `NULL`
  is an `Option` of the element pointed to;
* a C++ `int` holding a position is an `Int`, and the only arithmetic performed
  on positions is comparison; an `int` holding a size, a thread count or an
  index is a `Nat`, and an index outside its vector makes the operation fail
  (`none`); the index arithmetic of the worker partition stays within `[0, N]`,
  so no wrap-around can occur;
* a parameter passed by reference to a mutator of the object that may hold the
  referent (`removeStaff(const Staff &)`) is a `StaffRef`: either an object
  outside the system or the index of one of its own staves, read again at every
  use;
* the layout code is embedded over any type of coordinates with 0, 50 and an
  addition: over `ℚ` no addition rounds, and over `Double`, a model of the
  finite binary64 values, every addition rounds to nearest as that of a C++
  `double` does. A rendered element has a bounding rectangle with any origin.
-/

namespace Score

/-! ## Data model -/

/-- The value of `std::numeric_limits<int>::max()` for a 32-bit `int`. -/
def INT_MAX : Int := 2147483647

/-- Modelled from the spec: the `Barline` class (`barline.h` is not among the
sources). A barline is a positioned marker; `content` stands for every other
attribute taking part in structural equality. -/
structure Barline where
  position : Int
  content : Nat
deriving DecidableEq

/-- Modelled from the spec: the default constructor `Barline()`, which yields
the start barline at position 0. -/
def Barline.default : Barline := { position := 0, content := 0 }

/-- The accessor `Barline::getPosition`. -/
def Barline.getPosition (self : Barline) : Int := self.position

/-- The mutator `Barline::setPosition`. -/
def Barline.setPosition (self : Barline) (position : Int) : Barline :=
  { self with position := position }

/-- Modelled from the spec: the `Staff` class (not among the sources), compared
by structural equality on its content. -/
structure Staff where
  content : Nat
deriving DecidableEq

/-- Modelled from the spec: the `TempoMarker` class (not among the sources), a
positioned element compared by structural equality. -/
structure TempoMarker where
  position : Int
  content : Nat
deriving DecidableEq

/-- Modelled from the spec: the `AlternateEnding` class (not among the
sources), a positioned element compared by structural equality. -/
structure AlternateEnding where
  position : Int
  content : Nat
deriving DecidableEq

/-- Elements that expose an integer horizontal position (`getPosition()`). -/
class HasPosition (α : Type) where
  getPosition : α → Int

instance : HasPosition Barline := ⟨fun b => b.position⟩
instance : HasPosition TempoMarker := ⟨fun m => m.position⟩
instance : HasPosition AlternateEnding := ⟨fun e => e.position⟩

/-- A sequence is non-decreasing by position. -/
def SortedByPosition {α : Type} [HasPosition α] (objects : List α) : Prop :=
  objects.Pairwise (fun a b => HasPosition.getPosition a ≤ HasPosition.getPosition b)

instance {α : Type} [HasPosition α] (objects : List α) :
    Decidable (SortedByPosition objects) := by
  unfold SortedByPosition
  infer_instance

/-- The members of `class System` used by `system.cpp`. -/
structure System where
  myStaves : List Staff
  myBarlines : List Barline
  myTempoMarkers : List TempoMarker
  myAlternateEndings : List AlternateEnding
deriving DecidableEq

/-- The constructor `System::System()`: adds the start and end bars. -/
def System.new : System :=
  let myBarlines : List Barline := []
  let myBarlines := myBarlines ++ [Barline.default]
  let endBar := Barline.default
  let endBar := endBar.setPosition INT_MAX
  let myBarlines := myBarlines ++ [endBar]
  { myStaves := [], myBarlines := myBarlines, myTempoMarkers := [],
    myAlternateEndings := [] }

/-- The accessor `System::getBarlines`. -/
def System.getBarlines (self : System) : List Barline := self.myBarlines

/-- The accessor `System::getStaves`. -/
def System.getStaves (self : System) : List Staff := self.myStaves

/-- The accessor `System::getTempoMarkers`. -/
def System.getTempoMarkers (self : System) : List TempoMarker := self.myTempoMarkers

/-- The accessor `System::getAlternateEndings`. -/
def System.getAlternateEndings (self : System) : List AlternateEnding :=
  self.myAlternateEndings

/-- The lookup `System::getPreviousBarline`: scans the barlines from the end and
returns the first one met whose position is `<= position`, or `NULL`. -/
def System.getPreviousBarline (self : System) (position : Int) : Option Barline :=
  self.myBarlines.reverse.find? (fun barline => decide (barline.getPosition ≤ position))

/-- The lookup `System::getNextBarline`: scans the barlines from the start and
returns the first one met whose position is `>= position`, or `NULL`. -/
def System.getNextBarline (self : System) (position : Int) : Option Barline :=
  self.myBarlines.find? (fun barline => decide (barline.getPosition ≥ position))

/-- Modelled from the spec: `insertObject` of `utils.h` (not among the
sources). Sorted insertion by position, stable for equal positions: the new
element goes after every existing element whose position is not greater. -/
def insertObject {α : Type} [HasPosition α] : List α → α → List α
  | [], obj => [obj]
  | o :: rest, obj =>
    if HasPosition.getPosition obj < HasPosition.getPosition o then obj :: o :: rest
    else o :: insertObject rest obj

/-- Modelled from the spec: `removeObject` of `utils.h` (not among the
sources). Deletes every element structurally equal to the given value. -/
def removeObject {α : Type} [DecidableEq α] (objects : List α) (obj : α) : List α :=
  objects.filter (fun o => decide (o ≠ obj))

/-- The comparison `System::operator==`: the four vectors are compared in turn
with the element-wise comparison of `std::vector`. -/
def System.equals (self other : System) : Bool :=
  (self.myStaves == other.myStaves) &&
  (self.myBarlines == other.myBarlines) &&
  (self.myTempoMarkers == other.myTempoMarkers) &&
  (self.myAlternateEndings == other.myAlternateEndings)

/-- The mutator `System::insertStaff`: `push_back`. -/
def System.insertStaff (self : System) (staff : Staff) : System :=
  { self with myStaves := self.myStaves ++ [staff] }

/-- The argument `const Staff &staff` of `removeStaff`: a reference either to
a staff object outside the system or to the staff at an index of the system's
own vector `myStaves`, as obtained from `getStaves()`. -/
inductive StaffRef where
  | external (staff : Staff)
  | element (index : Nat)
deriving DecidableEq

/-- The staff that the reference designates while the vector holds `staves`;
`none` for an index outside the vector, which is no reference to a staff. -/
def StaffRef.read (self : StaffRef) (staves : List Staff) : Option Staff :=
  match self with
  | .external staff => some staff
  | .element index => staves[index]?

/-- The state of `std::remove`: the vector being rewritten and the write
position `first`. -/
structure RemoveState where
  staves : List Staff
  first : Nat
deriving DecidableEq

/-- One iteration of the loop of `std::remove`, at the read position `i`:
`if (!(*i == value)) *first++ = std::move(*i);`. The value is read through
the reference at every comparison, from the vector as it then is. -/
def removeStep (value : StaffRef) (st : RemoveState) (i : Nat) : RemoveState :=
  match st.staves[i]? with
  | none => st
  | some staff =>
    if some staff = value.read st.staves then st
    else { staves := st.staves.set st.first staff, first := st.first + 1 }

/-- The algorithm `std::remove(begin, end, value)`: `first = std::find(begin,
end, value)`, and, unless that is `end`, one iteration of the loop for every
position after `first`. Returns the rewritten vector and the new logical end. -/
def stdRemove (staves : List Staff) (value : StaffRef) : RemoveState :=
  let first := staves.findIdx (fun staff => decide (some staff = value.read staves))
  if first = staves.length then { staves := staves, first := first }
  else
    (List.range' (first + 1) (staves.length - (first + 1))).foldl (removeStep value)
      { staves := staves, first := first }

/-- The mutator `System::removeStaff`: the erase-remove idiom
`myStaves.erase(std::remove(begin, end, staff), end)`, the argument being taken
by reference. A reference that designates no staff is an error. -/
def System.removeStaff (self : System) (staff : StaffRef) : Option System :=
  match staff.read self.myStaves with
  | none => none
  | some _ =>
    let removed := stdRemove self.myStaves staff
    some { self with myStaves := removed.staves.take removed.first }

/-- The mutator `System::insertBarline`. -/
def System.insertBarline (self : System) (barline : Barline) : System :=
  { self with myBarlines := insertObject self.myBarlines barline }

/-- The mutator `System::removeBarline`. -/
def System.removeBarline (self : System) (barline : Barline) : System :=
  { self with myBarlines := removeObject self.myBarlines barline }

/-- The mutator `System::insertTempoMarker`. -/
def System.insertTempoMarker (self : System) (marker : TempoMarker) : System :=
  { self with myTempoMarkers := insertObject self.myTempoMarkers marker }

/-- The mutator `System::removeTempoMarker`. -/
def System.removeTempoMarker (self : System) (marker : TempoMarker) : System :=
  { self with myTempoMarkers := removeObject self.myTempoMarkers marker }

/-- The mutator `System::insertAlternateEnding`. -/
def System.insertAlternateEnding (self : System) (ending : AlternateEnding) : System :=
  { self with myAlternateEndings := insertObject self.myAlternateEndings ending }

/-- The mutator `System::removeAlternateEnding`. -/
def System.removeAlternateEnding (self : System) (ending : AlternateEnding) : System :=
  { self with myAlternateEndings := removeObject self.myAlternateEndings ending }

/-- One call of a mutator of `System`. The arguments that are copied into the
system are values; the argument of `removeStaff` is a reference. -/
inductive SystemEdit where
  | insertStaff (staff : Staff)
  | removeStaff (staff : StaffRef)
  | insertBarline (barline : Barline)
  | removeBarline (barline : Barline)
  | insertTempoMarker (marker : TempoMarker)
  | removeTempoMarker (marker : TempoMarker)
  | insertAlternateEnding (ending : AlternateEnding)
  | removeAlternateEnding (ending : AlternateEnding)

/-- Performs one mutator call on a system. A `removeStaff` whose reference
designates no staff is no call that a program can make; it leaves the system as
it is. -/
def System.applyEdit (self : System) : SystemEdit → System
  | .insertStaff staff => self.insertStaff staff
  | .removeStaff staff =>
    match self.removeStaff staff with
    | some removed => removed
    | none => self
  | .insertBarline barline => self.insertBarline barline
  | .removeBarline barline => self.removeBarline barline
  | .insertTempoMarker marker => self.insertTempoMarker marker
  | .removeTempoMarker marker => self.removeTempoMarker marker
  | .insertAlternateEnding ending => self.insertAlternateEnding ending
  | .removeAlternateEnding ending => self.removeAlternateEnding ending

/-- Performs a finite sequence of mutator calls, first to last. -/
def System.applyEdits (self : System) (edits : List SystemEdit) : System :=
  edits.foldl System.applyEdit self

/-- The three positioned collections of a system are sorted. -/
def System.Sorted (self : System) : Prop :=
  SortedByPosition self.myBarlines ∧ SortedByPosition self.myTempoMarkers ∧
    SortedByPosition self.myAlternateEndings

/-! ## The score area (`scorearea.cpp`)

Of its `double` coordinates the layout code uses only the constants 0 and 50
and addition. It is embedded over any type `R` that has these: `ℚ` gives the
arithmetic without rounding, and `Double` below gives the binary64 arithmetic,
in which every addition rounds. -/

/-- The constant `static const double SYSTEM_SPACING = 50;`. -/
def SYSTEM_SPACING {R : Type} [OfNat R 50] : R := 50

/-- A rectangle with `double` coordinates (`QRectF`): left, top, width, height. -/
structure QRectF (R : Type) where
  x : R
  y : R
  width : R
  height : R
deriving DecidableEq

/-- The bottom edge `QRectF::bottom()`: top plus height. -/
def QRectF.bottom {R : Type} [Add R] (self : QRectF R) : R := self.y + self.height

/-- The rectangle moved by `(dx, dy)`, `QRectF::translated`. -/
def QRectF.translated {R : Type} [Add R] (self : QRectF R) (dx dy : R) : QRectF R :=
  { x := self.x + dx, y := self.y + dy, width := self.width, height := self.height }

/-- Modelled from the spec: the rendered visual element of one system (the
`QGraphicsItem` produced by `SystemRenderer`, neither of which is among the
sources): an opaque positioned geometry object with a bounding rectangle.
`content` stands for what was drawn; `rect` is the bounding rectangle in the
item's own coordinates, with any origin; `x`, `y` is the position given by
`setPos`. -/
structure QGraphicsItem (R : Type) where
  content : Nat
  rect : QRectF R
  x : R
  y : R
deriving DecidableEq

/-- The mutator `QGraphicsItem::setPos`. -/
def QGraphicsItem.setPos {R : Type} (self : QGraphicsItem R) (x y : R) : QGraphicsItem R :=
  { self with x := x, y := y }

/-- The accessor `QGraphicsItem::boundingRect`, in item coordinates. -/
def QGraphicsItem.boundingRect {R : Type} (self : QGraphicsItem R) : QRectF R :=
  self.rect

/-- The accessor `QGraphicsItem::sceneBoundingRect`: the bounding rectangle moved
by the item's position. -/
def QGraphicsItem.sceneBoundingRect {R : Type} [Add R] (self : QGraphicsItem R) :
    QRectF R :=
  self.boundingRect.translated self.x self.y

/-- Modelled from the spec: the view mode selector `Staff::ViewType`, of which
the source names `GuitarView`. -/
inductive ViewType where
  | GuitarView
  | BassView
deriving DecidableEq

/-- The call `SystemRenderer::operator()` (`systemrenderer.h` is not among the
sources), taken as a parameter: a pure function of the system, its index and
the view mode. -/
abbrev SystemRenderer (R : Type) := System → Nat → ViewType → QGraphicsItem R

/-- Modelled from the spec: the caret painter (`caretpainter.h` is not among
the sources), reduced to its caret regions: one bounding rectangle per system,
in the overall coordinate space, indexed like the systems. -/
structure CaretPainter (R : Type) where
  systemRects : List (QRectF R)
deriving DecidableEq

/-- Modelled from the spec: `CaretPainter::addSystemRect` records the region of
the next system. -/
def CaretPainter.addSystemRect {R : Type} (self : CaretPainter R) (rect : QRectF R) :
    CaretPainter R :=
  { systemRects := self.systemRects ++ [rect] }

/-- Modelled from the spec: `CaretPainter::setSystemRect` replaces the region of
the system at `index`. -/
def CaretPainter.setSystemRect {R : Type} (self : CaretPainter R) (index : Nat)
    (rect : QRectF R) : CaretPainter R :=
  { systemRects := self.systemRects.set index rect }

/-- The members of `ScoreArea` that rendering reads and writes; `myDocument` is
the sequence of systems of the document's score. -/
structure ScoreArea (R : Type) where
  myRenderedSystems : List (QGraphicsItem R)
  myDocument : List System
  myViewType : ViewType
  myCaretPainter : CaretPainter R
deriving DecidableEq

/-- The bounds `(left, right)` handed to worker `i` by `renderDocument`, for
`size` rendered systems and `numThreads` workers. The source sets `numThreads`
to 1 (the `std::thread::hardware_concurrency()` line is compiled out); the
thread count is a parameter here. -/
def workerRange (size numThreads i : Nat) : Nat × Nat :=
  let workSize := size / numThreads
  let left := i * workSize
  let right := if i = numThreads - 1 then size else (i + 1) * workSize
  (left, right)

/-- The bounds of all workers, in the order in which `renderDocument` creates
them (`for (int i = 0; i < numThreads; ++i)`). -/
def workerRanges (size numThreads : Nat) : List (Nat × Nat) :=
  (List.range numThreads).map (workerRange size numThreads)

/-- The indices visited by `for (int i = left; i < right; ++i)`. -/
def workerIndices (bounds : Nat × Nat) : List Nat :=
  List.range' bounds.1 (bounds.2 - bounds.1)

/-- One iteration of a worker: `myRenderedSystems[i] = render(systems[i], i,
view)`. An index outside either vector is an error. -/
def renderSlot {R : Type} (render : SystemRenderer R) (score : List System)
    (view : ViewType) (rendered : List (Option (QGraphicsItem R))) (i : Nat) :
    Option (List (Option (QGraphicsItem R))) :=
  match score[i]? with
  | none => none
  | some system =>
    if i < rendered.length then some (rendered.set i (some (render system i view)))
    else none

/-- The body of one worker thread of `renderDocument`. -/
def renderWorker {R : Type} (render : SystemRenderer R) (score : List System)
    (view : ViewType) (rendered : List (Option (QGraphicsItem R))) (bounds : Nat × Nat) :
    Option (List (Option (QGraphicsItem R))) :=
  (workerIndices bounds).foldlM (renderSlot render score view) rendered

/-- The layout loop of `renderDocument`, started with running height `height`:
each system is placed at `(0, height)`, the height advances by the bounding
height plus the spacing, and the scene rectangle is handed to the caret
painter. A null entry is an error. Returns the placed systems and the caret
painter. -/
def layoutSystems {R : Type} [Zero R] [Add R] [OfNat R 50] :
    List (Option (QGraphicsItem R)) → R → CaretPainter R →
    Option (List (QGraphicsItem R) × CaretPainter R)
  | [], _, caret => some ([], caret)
  | none :: _, _, _ => none
  | some system :: rest, height, caret =>
    let system := system.setPos 0 height
    let height := height + (system.boundingRect.height + SYSTEM_SPACING)
    let caret := caret.addSystemRect system.sceneBoundingRect
    match layoutSystems rest height caret with
    | none => none
    | some (placed, caret) => some (system :: placed, caret)

/-- The method `ScoreArea::renderDocument`, for `numThreads` workers. Every
member is overwritten, so the previous state is not an argument; the caret
painter is created anew, without regions. The rendered vector starts as one
null pointer per system; the workers, which write pairwise disjoint slots and
are all joined before the layout, are run in the order of their creation; then
the systems are laid out. Division by a zero thread count is an error. -/
def renderDocument {R : Type} [Zero R] [Add R] [OfNat R 50] (render : SystemRenderer R)
    (numThreads : Nat) (document : List System) (view : ViewType) :
    Option (ScoreArea R) :=
  let myRenderedSystems : List (Option (QGraphicsItem R)) := document.map (fun _ => none)
  if numThreads = 0 then none
  else
    match (workerRanges myRenderedSystems.length numThreads).foldlM
        (renderWorker render document view) myRenderedSystems with
    | none => none
    | some rendered =>
      match layoutSystems rendered 0 { systemRects := [] } with
      | none => none
      | some (placed, caret) =>
        some { myRenderedSystems := placed, myDocument := document,
               myViewType := view, myCaretPainter := caret }

/-- The state of the loop "shift the following systems" of `redrawSystem`: the
rendered systems, the caret painter and the running height. -/
structure ShiftState (R : Type) where
  systems : List (QGraphicsItem R)
  caret : CaretPainter R
  height : R

/-- One iteration of the loop "shift the following systems" of `redrawSystem`. -/
def shiftStep {R : Type} [Zero R] [Add R] [OfNat R 50] (st : ShiftState R) (i : Nat) :
    ShiftState R :=
  match st.systems[i]? with
  | none => st
  | some system =>
    let system := system.setPos 0 st.height
    { systems := st.systems.set i system,
      caret := st.caret.setSystemRect i system.sceneBoundingRect,
      height := st.height + (system.boundingRect.height + SYSTEM_SPACING) }

/-- The method `ScoreArea::redrawSystem`. An index outside the rendered systems
or outside the score is an error. -/
def redrawSystem {R : Type} [Zero R] [Add R] [OfNat R 50] (render : SystemRenderer R)
    (self : ScoreArea R) (index : Nat) : Option (ScoreArea R) :=
  if index < self.myRenderedSystems.length then
    let myRenderedSystems := self.myRenderedSystems.eraseIdx index
    match self.myDocument[index]? with
    | none => none
    | some system =>
      let newSystem := render system index self.myViewType
      let start : Option R :=
        if index > 0 then
          (myRenderedSystems[index - 1]?).map
            (fun previous => previous.sceneBoundingRect.bottom + SYSTEM_SPACING)
        else some 0
      match start with
      | none => none
      | some height =>
        let newSystem := newSystem.setPos 0 height
        let height := height + (newSystem.boundingRect.height + SYSTEM_SPACING)
        let caret := self.myCaretPainter.setSystemRect index newSystem.sceneBoundingRect
        let myRenderedSystems :=
          myRenderedSystems.take index ++ newSystem :: myRenderedSystems.drop index
        let final :=
          (List.range' (index + 1) (myRenderedSystems.length - (index + 1))).foldl
            shiftStep { systems := myRenderedSystems, caret := caret, height := height }
        some { self with myRenderedSystems := final.systems,
                         myCaretPainter := final.caret }
  else none

/-- The stacking of a run of systems below running height `height`: the pure
description of what the layout loops compute. -/
def stackFrom {R : Type} [Zero R] [Add R] [OfNat R 50] :
    R → List (QGraphicsItem R) → List (QGraphicsItem R)
  | _, [] => []
  | height, system :: rest =>
    system.setPos 0 height ::
      stackFrom (height + (system.boundingRect.height + SYSTEM_SPACING)) rest

/-- The running height of the layout loops after the run `items`, started at
`height`: each element adds its bounding height plus the spacing. -/
def endHeight {R : Type} [Add R] [OfNat R 50] : R → List (QGraphicsItem R) → R
  | height, [] => height
  | height, system :: rest =>
    endHeight (height + (system.boundingRect.height + SYSTEM_SPACING)) rest

/-- The height at which `redrawSystem` places the new system below the run
`before` of untouched systems: 0 when there is none, otherwise the bottom edge
of the last one plus the spacing. -/
def startHeight {R : Type} [Zero R] [Add R] [OfNat R 50] (before : List (QGraphicsItem R)) :
    R :=
  match before.getLast? with
  | none => 0
  | some previous => previous.sceneBoundingRect.bottom + SYSTEM_SPACING

/-- The caret regions are those of the rendered systems: entry `k` is the scene
bounding rectangle of rendered element `k`, and there are as many entries as
elements. -/
def ScoreArea.CaretInSync {R : Type} [Add R] (self : ScoreArea R) : Prop :=
  self.myCaretPainter.systemRects =
    self.myRenderedSystems.map QGraphicsItem.sceneBoundingRect

/-- A full layout followed by one incremental update: `renderDocument` with
one worker, then `redrawSystem(index)` on the same document. -/
def renderThenRedraw {R : Type} [Zero R] [Add R] [OfNat R 50] (render : SystemRenderer R)
    (document : List System) (view : ViewType) (index : Nat) : Option (ScoreArea R) :=
  match renderDocument render 1 document view with
  | none => none
  | some area => redrawSystem render area index

/-! ### Binary64 arithmetic -/

/-- A finite binary64 (`double`) value `mantissa * 2 ^ exponent`, in canonical
form: the mantissa is odd and below `2 ^ 53` in absolute value, or both
components are 0. Infinities, NaN, the sign of zero and the bounds on the
exponent (overflow, subnormal values) are outside the model; they do not arise
at layout coordinates. -/
structure Double where
  mantissa : Int
  exponent : Int
deriving DecidableEq

/-- One step of counting binary digits: when `2 ^ k <= n`, drop `k` digits. -/
def bitLengthStep (st : Nat × Nat) (k : Nat) : Nat × Nat :=
  if 2 ^ k ≤ st.1 then (st.1 / 2 ^ k, st.2 + k) else st

/-- The number of binary digits of `n`, for `n < 2 ^ 256`. -/
def bitLength (n : Nat) : Nat :=
  if n = 0 then 0
  else ([128, 64, 32, 16, 8, 4, 2, 1].foldl bitLengthStep (n, 0)).2 + 1

/-- One step of removing trailing zero digits: when `2 ^ k` divides `n`, drop
`k` of them and raise the exponent by `k`. -/
def stripZerosStep (st : Nat × Int) (k : Nat) : Nat × Int :=
  if st.1 % 2 ^ k = 0 then (st.1 / 2 ^ k, st.2 + k) else st

/-- The canonical form of `n * 2 ^ e`, negated when `negative`, for `n` with
fewer than 64 trailing zero digits. -/
def Double.normalize (negative : Bool) (n : Nat) (e : Int) : Double :=
  if n = 0 then { mantissa := 0, exponent := 0 }
  else
    let st := [32, 16, 8, 4, 2, 1].foldl stripZerosStep (n, e)
    { mantissa := if negative then -(st.1 : Int) else (st.1 : Int), exponent := st.2 }

/-- The binary64 value nearest to `m * 2 ^ e`, ties going to the even mantissa
(the default rounding of IEEE 754): `m` is cut to 53 significant digits. -/
def Double.round (m e : Int) : Double :=
  let n := m.natAbs
  let bits := bitLength n
  if bits ≤ 53 then Double.normalize (decide (m < 0)) n e
  else
    let shift := bits - 53
    let q := n / 2 ^ shift
    let r := n % 2 ^ shift
    let half := 2 ^ (shift - 1)
    let q := if half < r ∨ (r = half ∧ q % 2 = 1) then q + 1 else q
    Double.normalize (decide (m < 0)) q (e + shift)

/-- The binary64 addition `a + b` of C++: the exact sum, rounded once. An
operand whose exponent is more than 128 below that of the other is far below
half a unit in the last place of the other and leaves it unchanged; otherwise
the exact sum has fewer than 256 binary digits. -/
def Double.add (a b : Double) : Double :=
  if a.mantissa = 0 then b
  else if b.mantissa = 0 then a
  else if b.exponent + 128 < a.exponent then a
  else if a.exponent + 128 < b.exponent then b
  else
    let e := min a.exponent b.exponent
    Double.round
      (a.mantissa * ((2 ^ (a.exponent - e).toNat : Nat) : Int) +
        b.mantissa * ((2 ^ (b.exponent - e).toNat : Nat) : Int)) e

instance : Zero Double := ⟨{ mantissa := 0, exponent := 0 }⟩

instance : Add Double := ⟨Double.add⟩

instance (n : Nat) : OfNat Double n := ⟨Double.round n 0⟩

/-- The `double` written `9.7` in C++: the binary64 value nearest to 9.7, which
is `0x1.3666666666666p+3`. -/
def Double.nineSeven : Double := { mantissa := 2730307274093363, exponent := -48 }

/-- The `double` written `-0.25`. -/
def Double.minusQuarter : Double := { mantissa := -1, exponent := -2 }

/-! ### Examples -/

/-- A renderer for examples: the system with `n` staves is drawn `100 + 50 n`
units high, with its bounding rectangle at the item's origin, and the index is
recorded as the content. -/
def exampleRenderer : SystemRenderer ℚ := fun system i _ =>
  { content := i, rect := ⟨0, 0, 800, 100 + 50 * system.myStaves.length⟩, x := 0, y := 0 }

/-- An unplaced element of the given height. -/
def itemOfHeight (height : ℚ) : QGraphicsItem ℚ :=
  { content := 0, rect := ⟨0, 0, 800, height⟩, x := 0, y := 0 }

/-- A document of three systems with no, one and two staves. -/
def exampleDocument : List System :=
  [System.new, System.new.insertStaff ⟨1⟩,
    (System.new.insertStaff ⟨1⟩).insertStaff ⟨2⟩]

/-- A placed element: content `content`, height `height`, at `(0, y)`. -/
def placedItem (content : Nat) (height y : ℚ) : QGraphicsItem ℚ :=
  { content := content, rect := ⟨0, 0, 800, height⟩, x := 0, y := y }

/-- A laid-out score area of five systems, each 100 units high, whose document
has since been edited: system 2 has gained a staff. -/
def exampleArea : ScoreArea ℚ :=
  { myRenderedSystems :=
      [placedItem 0 100 0, placedItem 1 100 150, placedItem 2 100 300,
        placedItem 3 100 450, placedItem 4 100 600],
    myDocument :=
      [System.new, System.new, System.new.insertStaff ⟨1⟩, System.new, System.new],
    myViewType := ViewType.GuitarView,
    myCaretPainter :=
      { systemRects :=
          [⟨0, 0, 800, 100⟩, ⟨0, 150, 800, 100⟩, ⟨0, 300, 800, 100⟩, ⟨0, 450, 800, 100⟩,
            ⟨0, 600, 800, 100⟩] } }

/-- Three rendered elements of heights 100, 80 and 80, not yet placed. -/
def exampleElements : List (QGraphicsItem ℚ) :=
  [itemOfHeight 100, itemOfHeight 80, itemOfHeight 80]

/-- A renderer in binary64 arithmetic that draws every system with the given
bounding rectangle and records the index as the content. -/
def uniformRenderer (rect : QRectF Double) : SystemRenderer Double := fun _ i _ =>
  { content := i, rect := rect, x := 0, y := 0 }

/-- A bounding rectangle 800 wide and 9.7 high, with its top left corner at the
item's origin. -/
def nineSevenRect : QRectF Double := ⟨0, 0, 800, Double.nineSeven⟩

/-- A bounding rectangle 800 wide and 100.5 high that starts a quarter unit
above the item's origin. -/
def raisedRect : QRectF Double := ⟨0, Double.minusQuarter, 800, ⟨201, -1⟩⟩

/-- Four rendered elements 9.7 high with contents 0 to 3, not yet placed. -/
def nineSevenElements : List (QGraphicsItem Double) :=
  [uniformRenderer nineSevenRect System.new 0 ViewType.GuitarView,
    uniformRenderer nineSevenRect System.new 1 ViewType.GuitarView,
    uniformRenderer nineSevenRect System.new 2 ViewType.GuitarView,
    uniformRenderer nineSevenRect System.new 3 ViewType.GuitarView]

/-- A document of the given number of freshly constructed systems. -/
def freshDocument (count : Nat) : List System :=
  List.replicate count System.new

/-- The value of `std::numeric_limits<int>::min()` for a 32-bit `int`. -/
def INT_MIN : Int := -2147483648

/-- The value can be held by a C++ `int`. -/
def IsInt (value : Int) : Prop := INT_MIN ≤ value ∧ value ≤ INT_MAX

instance (value : Int) : Decidable (IsInt value) := by
  unfold IsInt
  infer_instance

/-- The sentinel invariant of the barlines: there is a start barline at
position 0 and an end barline at position `INT_MAX`. -/
def System.HasSentinels (self : System) : Prop :=
  (∃ b ∈ self.myBarlines, b.getPosition = 0) ∧
    (∃ b ∈ self.myBarlines, b.getPosition = INT_MAX)

instance (self : System) : Decidable self.HasSentinels := by
  unfold System.HasSentinels
  infer_instance

/-- The edit is not a `removeBarline` of the start or of the end sentinel
barline created by the constructor. -/
def SystemEdit.sparesSentinels : SystemEdit → Bool
  | .removeBarline barline =>
    decide (barline ≠ Barline.default) &&
      decide (barline ≠ Barline.default.setPosition INT_MAX)
  | _ => true

/-- A system with three staves, the first and the last of equal content. -/
def exampleDuplicateStaves : System :=
  ((System.new.insertStaff ⟨7⟩).insertStaff ⟨8⟩).insertStaff ⟨7⟩

/-- A system with four staves, of contents 7, 8, 8 and 7. -/
def exampleAliasedStaves : System :=
  (((System.new.insertStaff ⟨7⟩).insertStaff ⟨8⟩).insertStaff ⟨8⟩).insertStaff ⟨7⟩

/-- A sequence of edits that inserts barlines at positions 4 and 8 and removes
the one at position 4 again. -/
def exampleBarlineEdits : List SystemEdit :=
  [.insertBarline ⟨4, 0⟩, .insertBarline ⟨8, 0⟩, .removeBarline ⟨4, 0⟩]

/-- A system holding exactly the given barlines and nothing else. -/
def systemWithBarlines (barlines : List Barline) : System :=
  { myStaves := [], myBarlines := barlines, myTempoMarkers := [],
    myAlternateEndings := [] }

/-- The barlines at positions 0, 4, 8 and `INT_MAX` of the lookup example. -/
def exampleBarlines : List Barline :=
  [⟨0, 0⟩, ⟨4, 0⟩, ⟨8, 0⟩, ⟨INT_MAX, 0⟩]

/-! ## Properties -/

/-- C1: a freshly constructed System has exactly two barlines, the first at
position 0 (the default-constructed start barline) and the second at position
`INT_MAX` (the end barline), in that order. -/
theorem new_system_barlines :
    System.new.getBarlines = [Barline.default, Barline.default.setPosition INT_MAX] ∧
    System.new.getBarlines.length = 2 ∧
    System.new.getBarlines.map Barline.getPosition = [0, INT_MAX] := by
  refine ⟨rfl, rfl, ?_⟩
  decide

/-- C2: on barlines sorted by ascending position, `getPreviousBarline p` is
`NULL` exactly when no barline has position `<= p`; otherwise it returns a
barline of the system with position `<= p`, which is the last such barline in
sequence order and whose position is the greatest barline position `<= p`. -/
theorem getPreviousBarline_spec (sys : System) (p : Int)
    (hsorted : SortedByPosition sys.getBarlines) :
    (sys.getPreviousBarline p = none ↔ ∀ b ∈ sys.getBarlines, ¬ b.getPosition ≤ p) ∧
    (∀ r, sys.getPreviousBarline p = some r →
      r.getPosition ≤ p ∧
      (∃ before after, sys.getBarlines = before ++ r :: after ∧
        ∀ b ∈ after, ¬ b.getPosition ≤ p) ∧
      (∀ b ∈ sys.getBarlines, b.getPosition ≤ p → b.getPosition ≤ r.getPosition)) := by
  unfold System.getPreviousBarline System.getBarlines at *
  refine ⟨by simp, ?_⟩
  intro r hr
  rw [List.find?_eq_some] at hr
  obtain ⟨hle, as, bs, hrev, has⟩ := hr
  have hle2 : r.getPosition ≤ p := by simpa using hle
  have hsplit : sys.myBarlines = bs.reverse ++ r :: as.reverse := by
    have := congrArg List.reverse hrev
    simpa using this
  have hafter : ∀ b ∈ as.reverse, ¬ b.getPosition ≤ p := by
    intro b hb
    have := has b (List.mem_reverse.mp hb)
    simpa using this
  refine ⟨hle2, ⟨bs.reverse, as.reverse, hsplit, hafter⟩, ?_⟩
  intro b hb hbp
  rw [hsplit] at hb hsorted
  unfold SortedByPosition at hsorted
  rw [List.pairwise_append] at hsorted
  obtain ⟨_, _, hcross⟩ := hsorted
  rcases List.mem_append.mp hb with hb1 | hb1
  · exact hcross b hb1 r (List.mem_cons_self _ _)
  · rcases List.mem_cons.mp hb1 with hb2 | hb2
    · rw [hb2]
    · exact absurd hbp (hafter b hb2)

/-- C2, witness: with barlines at 0, 4, 8 and `INT_MAX`, `getPreviousBarline 6`
is the barline at 4 and `getPreviousBarline 0` is the barline at 0. -/
theorem getPreviousBarline_spec_witness :
    SortedByPosition (systemWithBarlines exampleBarlines).getBarlines ∧
    (systemWithBarlines exampleBarlines).getPreviousBarline 6 = some ⟨4, 0⟩ ∧
    (systemWithBarlines exampleBarlines).getPreviousBarline 0 = some ⟨0, 0⟩ ∧
    ((Barline.mk 4 0).getPosition ≤ 6 ∧
      (∃ before after,
        (systemWithBarlines exampleBarlines).getBarlines = before ++ ⟨4, 0⟩ :: after ∧
        ∀ b ∈ after, ¬ b.getPosition ≤ 6) ∧
      (∀ b ∈ (systemWithBarlines exampleBarlines).getBarlines,
        b.getPosition ≤ 6 → b.getPosition ≤ (Barline.mk 4 0).getPosition)) :=
  ⟨by decide, by decide, by decide,
    (getPreviousBarline_spec (systemWithBarlines exampleBarlines) 6 (by decide)).2
      ⟨4, 0⟩ (by decide)⟩

/-- C3: on barlines sorted by ascending position, `getNextBarline p` is `NULL`
exactly when no barline has position `>= p`; otherwise it returns a barline of
the system with position `>= p`, which is the first such barline in sequence
order and whose position is the least barline position `>= p`. -/
theorem getNextBarline_spec (sys : System) (p : Int)
    (hsorted : SortedByPosition sys.getBarlines) :
    (sys.getNextBarline p = none ↔ ∀ b ∈ sys.getBarlines, ¬ b.getPosition ≥ p) ∧
    (∀ r, sys.getNextBarline p = some r →
      r.getPosition ≥ p ∧
      (∃ before after, sys.getBarlines = before ++ r :: after ∧
        ∀ b ∈ before, ¬ b.getPosition ≥ p) ∧
      (∀ b ∈ sys.getBarlines, b.getPosition ≥ p → r.getPosition ≤ b.getPosition)) := by
  unfold System.getNextBarline System.getBarlines at *
  refine ⟨by simp, ?_⟩
  intro r hr
  rw [List.find?_eq_some] at hr
  obtain ⟨hge, as, bs, hsplit, has⟩ := hr
  have hge2 : r.getPosition ≥ p := by simpa using hge
  have hbefore : ∀ b ∈ as, ¬ b.getPosition ≥ p := by
    intro b hb
    have := has b hb
    simpa using this
  refine ⟨hge2, ⟨as, bs, hsplit, hbefore⟩, ?_⟩
  intro b hb hbp
  rw [hsplit] at hb hsorted
  unfold SortedByPosition at hsorted
  rw [List.pairwise_append] at hsorted
  obtain ⟨_, htail, _⟩ := hsorted
  rcases List.mem_append.mp hb with hb1 | hb1
  · exact absurd hbp (hbefore b hb1)
  · rcases List.mem_cons.mp hb1 with hb2 | hb2
    · rw [hb2]
    · exact (List.pairwise_cons.mp htail).1 b hb2

/-- C3, witness: with barlines at 0, 4, 8 and `INT_MAX`, `getNextBarline 6` is
the barline at 8 and `getNextBarline INT_MAX` is the end barline. -/
theorem getNextBarline_spec_witness :
    SortedByPosition (systemWithBarlines exampleBarlines).getBarlines ∧
    (systemWithBarlines exampleBarlines).getNextBarline 6 = some ⟨8, 0⟩ ∧
    (systemWithBarlines exampleBarlines).getNextBarline INT_MAX = some ⟨INT_MAX, 0⟩ ∧
    ((Barline.mk 8 0).getPosition ≥ 6 ∧
      (∃ before after,
        (systemWithBarlines exampleBarlines).getBarlines = before ++ ⟨8, 0⟩ :: after ∧
        ∀ b ∈ before, ¬ b.getPosition ≥ 6) ∧
      (∀ b ∈ (systemWithBarlines exampleBarlines).getBarlines,
        b.getPosition ≥ 6 → (Barline.mk 8 0).getPosition ≤ b.getPosition)) :=
  ⟨by decide, by decide, by decide,
    (getNextBarline_spec (systemWithBarlines exampleBarlines) 6 (by decide)).2
      ⟨8, 0⟩ (by decide)⟩

/-- Sorted insertion keeps a sorted sequence sorted. -/
theorem insertObject_sorted {α : Type} [HasPosition α] (objects : List α) (obj : α)
    (h : SortedByPosition objects) : SortedByPosition (insertObject objects obj) := by
  unfold SortedByPosition at *
  induction objects with
  | nil => simp [insertObject]
  | cons o rest ih =>
    rw [List.pairwise_cons] at h
    obtain ⟨hhead, htail⟩ := h
    unfold insertObject
    split
    · rename_i hlt
      refine List.pairwise_cons.mpr ⟨?_, List.pairwise_cons.mpr ⟨hhead, htail⟩⟩
      intro b hb
      rcases List.mem_cons.mp hb with hb1 | hb1
      · rw [hb1]; exact le_of_lt hlt
      · exact le_trans (le_of_lt hlt) (hhead b hb1)
    · rename_i hnlt
      refine List.pairwise_cons.mpr ⟨?_, ih htail⟩
      intro b hb
      have hmem : b = obj ∨ b ∈ rest := by
        clear ih hhead htail
        induction rest with
        | nil => simpa [insertObject] using hb
        | cons r rs ihr =>
          unfold insertObject at hb
          split at hb
          · rcases List.mem_cons.mp hb with h1 | h1
            · exact Or.inl h1
            · exact Or.inr h1
          · rcases List.mem_cons.mp hb with h1 | h1
            · exact Or.inr (h1 ▸ List.mem_cons_self _ _)
            · rcases ihr h1 with h2 | h2
              · exact Or.inl h2
              · exact Or.inr (List.mem_cons_of_mem _ h2)
      rcases hmem with h1 | h1
      · rw [h1]; exact not_lt.mp hnlt
      · exact hhead b h1

/-- Removal keeps a sorted sequence sorted. -/
theorem removeObject_sorted {α : Type} [HasPosition α] [DecidableEq α]
    (objects : List α) (obj : α)
    (h : SortedByPosition objects) : SortedByPosition (removeObject objects obj) :=
  List.Pairwise.filter _ h

/-- A `removeStaff` edit changes the staves only: the system after it is the
system before it with some sequence of staves. -/
theorem applyEdit_removeStaff (sys : System) (ref : StaffRef) :
    sys.applyEdit (.removeStaff ref) =
      { sys with myStaves := (sys.applyEdit (.removeStaff ref)).myStaves } := by
  simp only [System.applyEdit, System.removeStaff]
  cases ref.read sys.myStaves <;> rfl

/-- Every mutator keeps the positioned collections sorted. -/
theorem applyEdit_sorted (sys : System) (edit : SystemEdit) (h : sys.Sorted) :
    (sys.applyEdit edit).Sorted := by
  obtain ⟨hb, ht, ha⟩ := h
  cases edit
  · exact ⟨hb, ht, ha⟩
  · rw [applyEdit_removeStaff]
    exact ⟨hb, ht, ha⟩
  · exact ⟨insertObject_sorted _ _ hb, ht, ha⟩
  · exact ⟨removeObject_sorted _ _ hb, ht, ha⟩
  · exact ⟨hb, insertObject_sorted _ _ ht, ha⟩
  · exact ⟨hb, removeObject_sorted _ _ ht, ha⟩
  · exact ⟨hb, ht, insertObject_sorted _ _ ha⟩
  · exact ⟨hb, ht, removeObject_sorted _ _ ha⟩

/-- Every sequence of mutators keeps the positioned collections sorted. -/
theorem applyEdits_sorted (edits : List SystemEdit) (sys : System) (h : sys.Sorted) :
    (sys.applyEdits edits).Sorted := by
  induction edits generalizing sys with
  | nil => exact h
  | cons e es ih => exact ih (sys.applyEdit e) (applyEdit_sorted sys e h)

/-- C4: starting from a freshly constructed System, after every finite sequence
of insert and remove operations on barlines, tempo markers and alternate
endings, each of the three collections is non-decreasing by position. -/
theorem sorted_after_edits (edits : List SystemEdit) :
    SortedByPosition (System.new.applyEdits edits).getBarlines ∧
    SortedByPosition (System.new.applyEdits edits).getTempoMarkers ∧
    SortedByPosition (System.new.applyEdits edits).getAlternateEndings :=
  applyEdits_sorted edits System.new ⟨by decide, by decide, by decide⟩

/-- C10: two Systems compare equal if and only if their staves, barlines, tempo
markers and alternate endings are each element-wise equal as ordered sequences
(same length, equal elements at every index); Systems differing in any one of
the four collections compare unequal. -/
theorem System_equals_spec (a b : System) :
    (a.equals b = true ↔
      ((a.myStaves.length = b.myStaves.length ∧ ∀ i : Nat, a.myStaves[i]? = b.myStaves[i]?) ∧
       (a.myBarlines.length = b.myBarlines.length ∧
          ∀ i : Nat, a.myBarlines[i]? = b.myBarlines[i]?) ∧
       (a.myTempoMarkers.length = b.myTempoMarkers.length ∧
          ∀ i : Nat, a.myTempoMarkers[i]? = b.myTempoMarkers[i]?) ∧
       (a.myAlternateEndings.length = b.myAlternateEndings.length ∧
          ∀ i : Nat, a.myAlternateEndings[i]? = b.myAlternateEndings[i]?))) ∧
    (a.equals b = false ↔
      (a.myStaves ≠ b.myStaves ∨ a.myBarlines ≠ b.myBarlines ∨
       a.myTempoMarkers ≠ b.myTempoMarkers ∨
       a.myAlternateEndings ≠ b.myAlternateEndings)) := by
  have key : ∀ {α : Type} (xs ys : List α),
      (xs.length = ys.length ∧ ∀ i : Nat, xs[i]? = ys[i]?) ↔ xs = ys := by
    intro α xs ys
    constructor
    · rintro ⟨_, h⟩
      exact List.ext_getElem? h
    · rintro rfl
      exact ⟨rfl, fun _ => rfl⟩
  have heq : a.equals b = true ↔
      (a.myStaves = b.myStaves ∧ a.myBarlines = b.myBarlines ∧
       a.myTempoMarkers = b.myTempoMarkers ∧
       a.myAlternateEndings = b.myAlternateEndings) := by
    simp [System.equals, and_assoc]
  refine ⟨by rw [heq, key, key, key, key], ?_⟩
  rw [← Bool.not_eq_true, heq]
  tauto

/-! ### The layout loop of `renderDocument` -/

/-- The length of a stacked run. -/
theorem stackFrom_length {R : Type} [Zero R] [Add R] [OfNat R 50]
    (items : List (QGraphicsItem R)) (height : R) :
    (stackFrom height items).length = items.length := by
  induction items generalizing height with
  | nil => rfl
  | cons s rest ih => simp [stackFrom, ih]

/-- Element `i` of a stacked run is element `i` of the input, moved to the
running height that the loop has reached after the elements before it. -/
theorem stackFrom_getElem?_endHeight {R : Type} [Zero R] [Add R] [OfNat R 50]
    (items : List (QGraphicsItem R)) (height : R) (i : Nat) :
    (stackFrom height items)[i]? =
      (items[i]?).map (fun s => s.setPos 0 (endHeight height (items.take i))) := by
  induction items generalizing height i with
  | nil => simp [stackFrom]
  | cons s rest ih =>
    cases i with
    | zero => simp [stackFrom, endHeight]
    | succ n =>
      simp only [stackFrom, List.getElem?_cons_succ, ih, List.take_succ_cons, endHeight]

/-- On a vector without null entries the layout loop succeeds and computes the
stacked run, whose scene rectangles it appends to the caret regions. -/
theorem layoutSystems_map_some {R : Type} [Zero R] [Add R] [OfNat R 50]
    (items : List (QGraphicsItem R)) (height : R) (caret : CaretPainter R) :
    layoutSystems (items.map some) height caret =
      some (stackFrom height items,
        { systemRects := caret.systemRects ++
            (stackFrom height items).map QGraphicsItem.sceneBoundingRect }) := by
  induction items generalizing height caret with
  | nil => simp [layoutSystems, stackFrom]
  | cons s rest ih =>
    simp [layoutSystems, stackFrom, ih, QGraphicsItem.boundingRect, QGraphicsItem.setPos,
      CaretPainter.addSystemRect]

/-- An index is visited by a worker exactly when it lies within its bounds. -/
theorem mem_workerIndices (bounds : Nat × Nat) (j : Nat) :
    j ∈ workerIndices bounds ↔ bounds.1 ≤ j ∧ j < bounds.2 := by
  unfold workerIndices
  rw [List.mem_range'_1]
  omega

/-- The left bound of worker `k`. -/
theorem workerRange_left (N W k : Nat) : (workerRange N W k).1 = k * (N / W) := rfl

/-- The right bound of a worker other than the last. -/
theorem workerRange_right_inner (N W k : Nat) (hk : k + 1 < W) :
    (workerRange N W k).2 = (k + 1) * (N / W) := by
  have : k ≠ W - 1 := by omega
  simp [workerRange, this]

/-- The right bound of the last worker. -/
theorem workerRange_right_last (N W : Nat) : (workerRange N W (W - 1)).2 = N := by
  simp [workerRange]

/-- The workers before the last one stay within the first `(W - 1) * (N / W)`
indices, which are at most `N`. -/
theorem workerRange_inner_le (N W k : Nat) (hk : k < W) : k * (N / W) ≤ N := by
  calc k * (N / W) ≤ W * (N / W) := Nat.mul_le_mul_right _ (Nat.le_of_lt hk)
    _ ≤ N := Nat.mul_div_le N W

/-- Every worker has `left <= right <= N`. -/
theorem workerRange_bounds (N W k : Nat) (hk : k < W) :
    (workerRange N W k).1 ≤ (workerRange N W k).2 ∧ (workerRange N W k).2 ≤ N := by
  rw [workerRange_left]
  by_cases hlast : k + 1 < W
  · rw [workerRange_right_inner N W k hlast]
    exact ⟨Nat.mul_le_mul_right _ (Nat.le_succ k), workerRange_inner_le N W (k + 1) hlast⟩
  · have hk2 : k = W - 1 := by omega
    rw [hk2, workerRange_right_last]
    exact ⟨workerRange_inner_le N W (W - 1) (by omega), le_refl N⟩

/-- Consecutive workers meet: the right bound of one is the left bound of the
next. -/
theorem workerRange_contiguous (N W k : Nat) (hk : k + 1 < W) :
    (workerRange N W k).2 = (workerRange N W (k + 1)).1 := by
  rw [workerRange_right_inner N W k hk, workerRange_left]

/-- The left bounds are non-decreasing in the worker number. -/
theorem workerRange_left_mono (N W k1 k2 : Nat) (h : k1 ≤ k2) :
    (workerRange N W k1).1 ≤ (workerRange N W k2).1 := by
  rw [workerRange_left, workerRange_left]
  exact Nat.mul_le_mul_right _ h

/-- Two different workers never visit the same index. -/
theorem workerIndices_disjoint (N W k1 k2 j : Nat) (h1 : k1 < W) (h2 : k2 < W)
    (hne : k1 ≠ k2) (hj1 : j ∈ workerIndices (workerRange N W k1)) :
    j ∉ workerIndices (workerRange N W k2) := by
  intro hj2
  rw [mem_workerIndices] at hj1 hj2
  rcases Nat.lt_or_gt_of_ne hne with hlt | hgt
  · have hc := workerRange_contiguous N W k1 (by omega)
    have hm := workerRange_left_mono N W (k1 + 1) k2 (by omega)
    omega
  · have hc := workerRange_contiguous N W k2 (by omega)
    have hm := workerRange_left_mono N W (k2 + 1) k1 (by omega)
    omega

/-- Every index below `N` is visited by some worker. -/
theorem workerIndices_cover (N W j : Nat) (hW : 1 ≤ W) (hj : j < N) :
    ∃ k, k < W ∧ j ∈ workerIndices (workerRange N W k) := by
  by_cases hin : j < (W - 1) * (N / W)
  · have hpos : 0 < N / W := by
      rcases Nat.eq_zero_or_pos (N / W) with h0 | h0
      · rw [h0] at hin; simp at hin
      · exact h0
    have hq : j / (N / W) < W - 1 := (Nat.div_lt_iff_lt_mul hpos).mpr hin
    refine ⟨j / (N / W), by omega, ?_⟩
    rw [mem_workerIndices, workerRange_left, workerRange_right_inner N W _ (by omega)]
    constructor
    · exact Nat.div_mul_le_self j (N / W)
    · have h1 := Nat.div_add_mod j (N / W)
      have h2 := Nat.mod_lt j hpos
      rw [Nat.add_mul, Nat.one_mul, Nat.mul_comm (j / (N / W)) (N / W)]
      omega
  · refine ⟨W - 1, by omega, ?_⟩
    rw [mem_workerIndices, workerRange_left, workerRange_right_last]
    omega

/-- No worker visits an index at or beyond `N`. -/
theorem workerIndices_lt (N W k j : Nat) (hk : k < W)
    (hj : j ∈ workerIndices (workerRange N W k)) : j < N := by
  rw [mem_workerIndices] at hj
  have := (workerRange_bounds N W k hk).2
  omega

/-- C6: for every system count `N` and worker count `W >= 1`, the ranges
`[left_k, right_k)` of `renderDocument` are contiguous and pairwise disjoint,
start at 0 and end at exactly `N`; every index in `[0, N)` belongs to exactly
one worker, and no worker visits an index outside `[0, N)`. -/
theorem workerRanges_partition (N W : Nat) (hW : 1 ≤ W) :
    (workerRanges N W).length = W ∧
    (∀ k, k < W → (workerRanges N W)[k]? = some (workerRange N W k)) ∧
    (workerRange N W 0).1 = 0 ∧
    (workerRange N W (W - 1)).2 = N ∧
    (∀ k, k + 1 < W → (workerRange N W k).2 = (workerRange N W (k + 1)).1) ∧
    (∀ k, k < W → (workerRange N W k).1 ≤ (workerRange N W k).2 ∧
      (workerRange N W k).2 ≤ N) ∧
    (∀ k1 k2 j, k1 < W → k2 < W → k1 ≠ k2 →
      j ∈ workerIndices (workerRange N W k1) → j ∉ workerIndices (workerRange N W k2)) ∧
    (∀ j, j < N → ∃! k, k < W ∧ j ∈ workerIndices (workerRange N W k)) ∧
    (∀ k j, k < W → j ∈ workerIndices (workerRange N W k) → j < N) := by
  refine ⟨by simp [workerRanges], ?_, by simp [workerRange_left],
    workerRange_right_last N W, workerRange_contiguous N W, workerRange_bounds N W,
    fun k1 k2 j h1 h2 hne hj => workerIndices_disjoint N W k1 k2 j h1 h2 hne hj, ?_, ?_⟩
  · intro k hk
    simp [workerRanges, List.getElem?_range hk]
  · intro j hj
    obtain ⟨k, hk, hmem⟩ := workerIndices_cover N W j hW hj
    refine ⟨k, ⟨hk, hmem⟩, ?_⟩
    rintro k2 ⟨hk2, hmem2⟩
    by_contra hne
    exact workerIndices_disjoint N W k k2 j hk hk2 (fun h => hne h.symm) hmem hmem2
  · intro k j hk hj
    exact workerIndices_lt N W k j hk hj

/-- C6, witness: ten systems on three workers are split into `[0, 3)`, `[3, 6)`
and `[6, 10)`. -/
theorem workerRanges_partition_witness :
    workerRanges 10 3 = [(0, 3), (3, 6), (6, 10)] ∧
    ((workerRanges 10 3).length = 3 ∧
    (∀ k, k < 3 → (workerRanges 10 3)[k]? = some (workerRange 10 3 k)) ∧
    (workerRange 10 3 0).1 = 0 ∧
    (workerRange 10 3 (3 - 1)).2 = 10 ∧
    (∀ k, k + 1 < 3 → (workerRange 10 3 k).2 = (workerRange 10 3 (k + 1)).1) ∧
    (∀ k, k < 3 → (workerRange 10 3 k).1 ≤ (workerRange 10 3 k).2 ∧
      (workerRange 10 3 k).2 ≤ 10) ∧
    (∀ k1 k2 j, k1 < 3 → k2 < 3 → k1 ≠ k2 →
      j ∈ workerIndices (workerRange 10 3 k1) → j ∉ workerIndices (workerRange 10 3 k2)) ∧
    (∀ j, j < 10 → ∃! k, k < 3 ∧ j ∈ workerIndices (workerRange 10 3 k)) ∧
    (∀ k j, k < 3 → j ∈ workerIndices (workerRange 10 3 k) → j < 10)) :=
  ⟨by decide, workerRanges_partition 10 3 (by decide)⟩

/-! ### The render phase of `renderDocument` -/

/-- Running the loop body over any list of valid indices succeeds; the visited
slots hold the rendering of their system and the other slots are untouched. -/
theorem renderSlots_spec {R : Type} (render : SystemRenderer R) (score : List System)
    (view : ViewType) (idxs : List Nat) (rendered : List (Option (QGraphicsItem R)))
    (hlen : rendered.length = score.length) (hidx : ∀ i ∈ idxs, i < score.length) :
    ∃ result, idxs.foldlM (renderSlot render score view) rendered = some result ∧
      result.length = score.length ∧
      (∀ j, j ∈ idxs → result[j]? = (score[j]?).map (fun s => some (render s j view))) ∧
      (∀ j, j ∉ idxs → result[j]? = rendered[j]?) := by
  induction idxs generalizing rendered with
  | nil => exact ⟨rendered, rfl, hlen, by simp, by simp⟩
  | cons i rest ih =>
    have hi : i < score.length := hidx i (List.mem_cons_self _ _)
    have hi2 : i < rendered.length := by omega
    have hstep : renderSlot render score view rendered i =
        some (rendered.set i (some (render score[i] i view))) := by
      simp [renderSlot, List.getElem?_eq_getElem hi, hi2]
    obtain ⟨result, hres, hlen2, hin, hout⟩ :=
      ih (rendered.set i (some (render score[i] i view))) (by simpa using hlen)
        (fun k hk => hidx k (List.mem_cons_of_mem _ hk))
    refine ⟨result, ?_, hlen2, ?_, ?_⟩
    · rw [List.foldlM_cons, hstep]
      exact hres
    · intro j hj
      by_cases hjr : j ∈ rest
      · exact hin j hjr
      · have hji : j = i := by
          rcases List.mem_cons.mp hj with h | h
          · exact h
          · exact absurd h hjr
        subst hji
        rw [hout j hjr, List.getElem?_set_self hi2, List.getElem?_eq_getElem hi]
        rfl
    · intro j hj
      have hjr : j ∉ rest := fun h => hj (List.mem_cons_of_mem _ h)
      have hji : i ≠ j := fun h => hj (h ▸ List.mem_cons_self _ _)
      rw [hout j hjr, List.getElem?_set_ne hji]

/-- The order in which slots are written is irrelevant: two lists of valid
indices with the same members leave the same vector, whatever the order and
the interleaving of the writes. -/
theorem renderSlots_order_independent {R : Type} (render : SystemRenderer R)
    (score : List System) (view : ViewType) (idxs1 idxs2 : List Nat)
    (rendered : List (Option (QGraphicsItem R)))
    (hlen : rendered.length = score.length) (hidx : ∀ i ∈ idxs1, i < score.length)
    (hsame : ∀ j, j ∈ idxs1 ↔ j ∈ idxs2) :
    idxs1.foldlM (renderSlot render score view) rendered =
      idxs2.foldlM (renderSlot render score view) rendered := by
  obtain ⟨r1, h1, _, hin1, hout1⟩ := renderSlots_spec render score view idxs1 rendered hlen hidx
  obtain ⟨r2, h2, _, hin2, hout2⟩ := renderSlots_spec render score view idxs2 rendered hlen
    (fun i hi => hidx i ((hsame i).mpr hi))
  rw [h1, h2]
  congr 1
  apply List.ext_getElem?
  intro j
  by_cases hj : j ∈ idxs1
  · rw [hin1 j hj, hin2 j ((hsame j).mp hj)]
  · rw [hout1 j hj, hout2 j (fun h => hj ((hsame j).mpr h))]

/-- Running a list of workers with valid bounds succeeds; the slots visited by
some worker hold the rendering of their system, the others are untouched. -/
theorem renderWorkers_spec {R : Type} (render : SystemRenderer R) (score : List System)
    (view : ViewType) (workers : List (Nat × Nat)) (rendered : List (Option (QGraphicsItem R)))
    (hlen : rendered.length = score.length)
    (hidx : ∀ w ∈ workers, ∀ i ∈ workerIndices w, i < score.length) :
    ∃ result, workers.foldlM (renderWorker render score view) rendered = some result ∧
      result.length = score.length ∧
      (∀ j, (∃ w ∈ workers, j ∈ workerIndices w) →
        result[j]? = (score[j]?).map (fun s => some (render s j view))) ∧
      (∀ j, (¬ ∃ w ∈ workers, j ∈ workerIndices w) → result[j]? = rendered[j]?) := by
  induction workers generalizing rendered with
  | nil => exact ⟨rendered, rfl, hlen, by simp, by simp⟩
  | cons w rest ih =>
    obtain ⟨mid, hmid, hlenm, hinm, houtm⟩ :=
      renderSlots_spec render score view (workerIndices w) rendered hlen
        (hidx w (List.mem_cons_self _ _))
    obtain ⟨result, hres, hlenr, hinr, houtr⟩ :=
      ih mid hlenm (fun v hv => hidx v (List.mem_cons_of_mem _ hv))
    refine ⟨result, ?_, hlenr, ?_, ?_⟩
    · rw [List.foldlM_cons]
      have hw : renderWorker render score view rendered w = some mid := hmid
      rw [hw]
      exact hres
    · rintro j ⟨v, hv, hjv⟩
      by_cases hjr : ∃ u ∈ rest, j ∈ workerIndices u
      · exact hinr j hjr
      · rw [houtr j hjr]
        rcases List.mem_cons.mp hv with h | h
        · exact hinm j (h ▸ hjv)
        · exact absurd ⟨v, h, hjv⟩ hjr
    · intro j hj
      have hjr : ¬ ∃ u ∈ rest, j ∈ workerIndices u := by
        rintro ⟨u, hu, hju⟩
        exact hj ⟨u, List.mem_cons_of_mem _ hu, hju⟩
      have hjw : j ∉ workerIndices w := fun h => hj ⟨w, List.mem_cons_self _ _, h⟩
      rw [houtr j hjr, houtm j hjw]

/-- With at least one worker, `renderDocument` succeeds and its result is the
sequential one: every system rendered at its own index, stacked from height 0,
with the scene rectangles as caret regions. -/
theorem renderDocument_eq {R : Type} [Zero R] [Add R] [OfNat R 50] (render : SystemRenderer R)
    (W : Nat) (document : List System) (view : ViewType) (hW : 1 ≤ W) :
    renderDocument render W document view =
      some { myRenderedSystems :=
               stackFrom 0 (document.mapIdx (fun i s => render s i view)),
             myDocument := document,
             myViewType := view,
             myCaretPainter :=
               { systemRects :=
                   (stackFrom 0 (document.mapIdx (fun i s => render s i view))).map
                     QGraphicsItem.sceneBoundingRect } } := by
  have hlen : (document.map (fun _ => (none : Option (QGraphicsItem R)))).length =
      document.length := by simp
  have hmemW : ∀ w ∈ workerRanges document.length W,
      ∃ k, k < W ∧ w = workerRange document.length W k := by
    intro w hw
    unfold workerRanges at hw
    obtain ⟨k, hk, hkw⟩ := List.mem_map.mp hw
    exact ⟨k, List.mem_range.mp hk, hkw.symm⟩
  obtain ⟨result, hres, hlenr, hin, _⟩ :=
    renderWorkers_spec render document view (workerRanges document.length W)
      (document.map (fun _ => none)) hlen (by
        intro w hw i hi
        obtain ⟨k, hk, rfl⟩ := hmemW w hw
        exact workerIndices_lt document.length W k i hk hi)
  have hfull : result = (document.mapIdx (fun i s => render s i view)).map some := by
    apply List.ext_getElem?
    intro j
    by_cases hj : j < document.length
    · obtain ⟨k, hk, hmem⟩ := workerIndices_cover document.length W j hW hj
      have hkw : workerRange document.length W k ∈ workerRanges document.length W := by
        unfold workerRanges
        exact List.mem_map.mpr ⟨k, List.mem_range.mpr hk, rfl⟩
      rw [hin j ⟨_, hkw, hmem⟩]
      simp [List.getElem?_eq_getElem hj]
    · rw [List.getElem?_eq_none (by omega), List.getElem?_eq_none (by simp; omega)]
  have hW0 : W ≠ 0 := by omega
  unfold renderDocument
  simp only [hW0, if_false, List.length_map] at hres ⊢
  rw [hres, hfull]
  simp only [layoutSystems_map_some, List.nil_append]

/-- C7: for every sequence of systems, every view mode, every pure render
function and every two worker counts `W1, W2 >= 1`, `renderDocument` succeeds
and produces the same rendered elements, the same stacked positions and
heights and the same caret regions with `W1` workers as with `W2` workers. -/
theorem renderDocument_worker_count_independent {R : Type} [Zero R] [Add R] [OfNat R 50]
    (render : SystemRenderer R) (document : List System) (view : ViewType) (W1 W2 : Nat)
    (h1 : 1 ≤ W1) (h2 : 1 ≤ W2) :
    ∃ area, renderDocument render W1 document view = some area ∧
      renderDocument render W2 document view = some area ∧
      area.myRenderedSystems.length = document.length ∧
      area.myCaretPainter.systemRects.length = document.length :=
  ⟨_, renderDocument_eq render W1 document view h1,
    renderDocument_eq render W2 document view h2,
    by simp [stackFrom_length], by simp [stackFrom_length]⟩

/-- C7, witness: three systems rendered with 1, 2 and 3 workers. -/
theorem renderDocument_worker_count_independent_witness :
    (renderDocument exampleRenderer 1 exampleDocument ViewType.GuitarView).isSome = true ∧
    renderDocument exampleRenderer 1 exampleDocument ViewType.GuitarView =
      renderDocument exampleRenderer 3 exampleDocument ViewType.GuitarView ∧
    ∃ area, renderDocument exampleRenderer 1 exampleDocument ViewType.GuitarView = some area ∧
      renderDocument exampleRenderer 2 exampleDocument ViewType.GuitarView = some area ∧
      area.myRenderedSystems.length = exampleDocument.length ∧
      area.myCaretPainter.systemRects.length = exampleDocument.length :=
  ⟨by decide,
    by rw [renderDocument_eq exampleRenderer 1 exampleDocument ViewType.GuitarView (by decide),
        renderDocument_eq exampleRenderer 3 exampleDocument ViewType.GuitarView (by decide)],
    renderDocument_worker_count_independent exampleRenderer exampleDocument
      ViewType.GuitarView 1 2 (by decide) (by decide)⟩

/-! ### `redrawSystem` -/

/-- The first element of a stacked run sits at the starting height. -/
theorem stackFrom_head {R : Type} [Zero R] [Add R] [OfNat R 50]
    (items : List (QGraphicsItem R)) (height : R) (a : QGraphicsItem R)
    (ha : (stackFrom height items)[0]? = some a) : a.x = 0 ∧ a.y = height := by
  cases items with
  | nil => simp [stackFrom] at ha
  | cons s rest =>
    simp only [stackFrom, List.getElem?_cons_zero, Option.some.injEq] at ha
    subst ha
    exact ⟨rfl, rfl⟩

/-- In a stacked run every element sits at the running height that the loop
reached after its predecessor: the offset of the predecessor plus the sum of
its bounding height and the spacing. -/
theorem stackFrom_chain {R : Type} [Zero R] [Add R] [OfNat R 50]
    (items : List (QGraphicsItem R)) (height : R) (n : Nat)
    (a b : QGraphicsItem R) (ha : (stackFrom height items)[n]? = some a)
    (hb : (stackFrom height items)[n + 1]? = some b) :
    b.x = 0 ∧ b.y = a.y + (a.boundingRect.height + SYSTEM_SPACING) := by
  induction items generalizing height n with
  | nil => simp [stackFrom] at ha
  | cons s rest ih =>
    cases n with
    | zero =>
      simp only [stackFrom, List.getElem?_cons_zero, Option.some.injEq] at ha
      simp only [stackFrom, List.getElem?_cons_succ] at hb
      obtain ⟨hx, hy⟩ := stackFrom_head rest _ b hb
      subst ha
      refine ⟨hx, ?_⟩
      rw [hy]
      rfl
    | succ m =>
      simp only [stackFrom, List.getElem?_cons_succ] at ha hb
      exact ih _ m ha hb

/-- The loop "shift the following systems", run over the systems `after` that
follow the run `before`: the run is untouched, the following systems are
stacked from the running height, the caret rectangles of the run and those
beyond the vector are untouched, and the caret rectangle of every shifted
system is its new scene rectangle. -/
theorem shiftLoop_spec {R : Type} [Zero R] [Add R] [OfNat R 50]
    (after before : List (QGraphicsItem R)) (rects : List (QRectF R)) (height : R) :
    ((List.range' before.length after.length).foldl shiftStep
        { systems := before ++ after, caret := ⟨rects⟩, height := height }).systems =
      before ++ stackFrom height after ∧
    ((List.range' before.length after.length).foldl shiftStep
        { systems := before ++ after, caret := ⟨rects⟩, height := height }).caret.systemRects.length =
      rects.length ∧
    (∀ k, k < before.length →
      ((List.range' before.length after.length).foldl shiftStep
        { systems := before ++ after, caret := ⟨rects⟩, height := height }).caret.systemRects[k]? =
        rects[k]?) ∧
    (∀ j, before.length + after.length ≤ j →
      ((List.range' before.length after.length).foldl shiftStep
        { systems := before ++ after, caret := ⟨rects⟩, height := height }).caret.systemRects[j]? =
        rects[j]?) ∧
    (∀ j, before.length ≤ j → j < rects.length →
      ((List.range' before.length after.length).foldl shiftStep
        { systems := before ++ after, caret := ⟨rects⟩, height := height }).caret.systemRects[j]? =
        ((stackFrom height after)[j - before.length]?).elim rects[j]?
          (fun s => some s.sceneBoundingRect)) := by
  induction after generalizing before rects height with
  | nil =>
    refine ⟨by simp [stackFrom], by simp, by simp, by simp, ?_⟩
    intro j _ _
    simp [stackFrom]
  | cons s rest ih =>
    have hget : (before ++ s :: rest)[before.length]? = some s := by
      rw [List.getElem?_append_right (le_refl _)]
      simp
    have hset : (before ++ s :: rest).set before.length (s.setPos 0 height) =
        (before ++ [s.setPos 0 height]) ++ rest := by
      rw [List.set_append_right _ _ (le_refl _)]
      simp
    have hstep : shiftStep
        { systems := before ++ s :: rest, caret := ⟨rects⟩, height := height } before.length =
        { systems := (before ++ [s.setPos 0 height]) ++ rest,
          caret := ⟨rects.set before.length (s.setPos 0 height).sceneBoundingRect⟩,
          height := height + (s.boundingRect.height + SYSTEM_SPACING) } := by
      simp only [shiftStep, hget, hset]
      rfl
    have hlen : (before ++ [s.setPos 0 height]).length = before.length + 1 := by simp
    obtain ⟨h1, h2, h3, h4, h5⟩ := ih (before ++ [s.setPos 0 height])
      (rects.set before.length (s.setPos 0 height).sceneBoundingRect)
      (height + (s.boundingRect.height + SYSTEM_SPACING))
    rw [hlen] at h1 h2 h3 h4 h5
    simp only [List.length_cons, List.range'_succ, List.foldl_cons, hstep]
    refine ⟨?_, ?_, ?_, ?_, ?_⟩
    · rw [h1]
      simp [stackFrom]
    · rw [h2]
      simp
    · intro k hk
      rw [h3 k (by omega), List.getElem?_set_ne (by omega)]
    · intro j hj
      rw [h4 j (by omega), List.getElem?_set_ne (by omega)]
    · intro j hj hjr
      rcases Nat.eq_or_lt_of_le hj with heq | hlt
      · subst heq
        rw [h3 _ (by omega), List.getElem?_set_self hjr]
        simp [stackFrom]
      · rw [h5 j (by omega) (by simpa using hjr)]
        have hsub : j - before.length = (j - (before.length + 1)) + 1 := by omega
        rw [hsub]
        simp only [stackFrom, List.getElem?_cons_succ]
        rw [List.getElem?_set_ne (by omega)]

/-- The start height computed by `redrawSystem` after taking the old system out
of the vector `before ++ old :: after`. -/
theorem redraw_start {R : Type} [Zero R] [Add R] [OfNat R 50]
    (before after : List (QGraphicsItem R)) :
    (if before.length > 0 then
        ((before ++ after)[before.length - 1]?).map
          (fun previous => previous.sceneBoundingRect.bottom + SYSTEM_SPACING)
      else some 0) = some (startHeight before) := by
  unfold startHeight
  rcases List.eq_nil_or_concat before with h | ⟨init, last, h⟩
  · subst h
    simp
  · rw [List.concat_eq_append] at h
    subst h
    have hget : ((init ++ [last]) ++ after)[(init ++ [last]).length - 1]? = some last := by
      rw [List.getElem?_append_left (by simp)]
      simp
    have hpos : (init ++ [last]).length > 0 := by simp
    rw [if_pos hpos, hget]
    simp

/-- The effect of `redrawSystem` on a vector split around the redrawn index:
the run before it is kept, the new rendering and the systems after it are
stacked from the start height, the document and view mode are kept, and the
caret rectangles are those written by the shifting loop. -/
theorem redrawSystem_decomposed {R : Type} [Zero R] [Add R] [OfNat R 50]
    (render : SystemRenderer R) (before after : List (QGraphicsItem R))
    (old : QGraphicsItem R) (document : List System) (view : ViewType)
    (caret : List (QRectF R)) (system : System)
    (hsys : document[before.length]? = some system) :
    ∃ rects,
      redrawSystem render
          { myRenderedSystems := before ++ old :: after, myDocument := document,
            myViewType := view, myCaretPainter := ⟨caret⟩ } before.length =
        some { myRenderedSystems :=
                 before ++ stackFrom (startHeight before)
                   (render system before.length view :: after),
               myDocument := document, myViewType := view, myCaretPainter := ⟨rects⟩ } ∧
      rects.length = caret.length ∧
      (∀ k, k < before.length → rects[k]? = caret[k]?) ∧
      (∀ j, before.length + 1 + after.length ≤ j → rects[j]? = caret[j]?) ∧
      (∀ j, before.length ≤ j → j < caret.length →
        rects[j]? =
          ((stackFrom (startHeight before)
              (render system before.length view :: after))[j - before.length]?).elim
            caret[j]? (fun s => some s.sceneBoundingRect)) := by
  have hlt : before.length < (before ++ old :: after).length := by simp
  have herase : (before ++ old :: after).eraseIdx before.length = before ++ after := by
    rw [List.eraseIdx_append_of_length_le (le_refl _)]
    simp
  have hsplit : ∀ x : QGraphicsItem R,
      List.take before.length (before ++ after) ++ x :: List.drop before.length (before ++ after) =
        (before ++ [x]) ++ after := by
    intro x
    rw [List.take_left, List.drop_left]
    simp
  have hcount : ∀ x : QGraphicsItem R,
      ((before ++ [x]) ++ after).length - (before.length + 1) = after.length := by
    intro x
    simp
    omega
  have hlen1 : ∀ x : QGraphicsItem R, (before ++ [x]).length = before.length + 1 := by
    intro x
    simp
  obtain ⟨h1, h2, h3, h4, h5⟩ := shiftLoop_spec after
    (before ++ [(render system before.length view).setPos 0 (startHeight before)])
    (caret.set before.length
      ((render system before.length view).setPos 0 (startHeight before)).sceneBoundingRect)
    (startHeight before +
      (((render system before.length view).setPos 0 (startHeight before)).boundingRect.height +
        SYSTEM_SPACING))
  rw [hlen1] at h1 h2 h3 h4 h5
  generalize hF : (List.range' (before.length + 1) after.length).foldl shiftStep
    { systems := (before ++ [(render system before.length view).setPos 0 (startHeight before)])
        ++ after,
      caret := ⟨caret.set before.length
        ((render system before.length view).setPos 0 (startHeight before)).sceneBoundingRect⟩,
      height := startHeight before +
        (((render system before.length view).setPos 0
          (startHeight before)).boundingRect.height + SYSTEM_SPACING) } = final
    at h1 h2 h3 h4 h5
  have hstack : before ++ [(render system before.length view).setPos 0 (startHeight before)] ++
      stackFrom (startHeight before +
        (((render system before.length view).setPos 0
          (startHeight before)).boundingRect.height + SYSTEM_SPACING)) after =
      before ++ stackFrom (startHeight before) (render system before.length view :: after) := by
    simp [stackFrom, QGraphicsItem.boundingRect, QGraphicsItem.setPos]
  refine ⟨final.caret.systemRects, ?_, ?_, ?_, ?_, ?_⟩
  · unfold redrawSystem
    simp only [hlt, if_true, herase, hsys, redraw_start, hsplit, hcount,
      CaretPainter.setSystemRect, hF]
    rw [h1, hstack]
  · rw [h2]
    simp
  · intro k hk
    rw [h3 k (by omega), List.getElem?_set_ne (by omega)]
  · intro j hj
    rw [h4 j (by omega), List.getElem?_set_ne (by omega)]
  · intro j hj hjc
    rcases Nat.eq_or_lt_of_le hj with heq | hlt2
    · subst heq
      rw [h3 _ (by omega), List.getElem?_set_self hjc]
      simp [stackFrom]
    · rw [h5 j (by omega) (by simpa using hjc)]
      have hsub : j - before.length = (j - (before.length + 1)) + 1 := by omega
      rw [hsub]
      simp only [stackFrom, List.getElem?_cons_succ]
      rw [List.getElem?_set_ne (by omega)]
      rfl

/-- The effect of `redrawSystem` at a valid index `i`: the call succeeds, the
systems before `i` are kept, the new rendering of system `i` and the systems
after it are stacked from the start height, the document and the view mode are
kept, and the caret rectangles are updated from index `i` on. -/
theorem redrawSystem_spec {R : Type} [Zero R] [Add R] [OfNat R 50]
    (render : SystemRenderer R) (area : ScoreArea R) (i : Nat)
    (hi : i < area.myRenderedSystems.length) (hdoc : i < area.myDocument.length) :
    ∃ area', redrawSystem render area i = some area' ∧
      area'.myRenderedSystems =
        area.myRenderedSystems.take i ++
          stackFrom (startHeight (area.myRenderedSystems.take i))
            (render area.myDocument[i] i area.myViewType ::
              area.myRenderedSystems.drop (i + 1)) ∧
      area'.myDocument = area.myDocument ∧
      area'.myViewType = area.myViewType ∧
      area'.myCaretPainter.systemRects.length = area.myCaretPainter.systemRects.length ∧
      (∀ k, k < i → area'.myCaretPainter.systemRects[k]? = area.myCaretPainter.systemRects[k]?) ∧
      (∀ j, area.myRenderedSystems.length ≤ j →
        area'.myCaretPainter.systemRects[j]? = area.myCaretPainter.systemRects[j]?) ∧
      (∀ j, i ≤ j → j < area.myCaretPainter.systemRects.length →
        area'.myCaretPainter.systemRects[j]? =
          (area'.myRenderedSystems[j]?).elim area.myCaretPainter.systemRects[j]?
            (fun s => some s.sceneBoundingRect)) := by
  obtain ⟨items, document, view, ⟨caret⟩⟩ := area
  simp only at hi hdoc ⊢
  have hblen : (items.take i).length = i := by
    rw [List.length_take]
    omega
  have hdecomp : items.take i ++ items[i] :: items.drop (i + 1) = items := by
    rw [List.getElem_cons_drop, List.take_append_drop]
  have hsys : document[(items.take i).length]? = some document[i] := by
    rw [hblen, List.getElem?_eq_getElem hdoc]
  obtain ⟨rects, hres, hlen, hbefore, hbeyond, hfrom⟩ :=
    redrawSystem_decomposed render (items.take i) (items.drop (i + 1)) items[i]
      document view caret document[i] hsys
  rw [hdecomp, hblen] at hres
  rw [hblen] at hbefore hbeyond hfrom
  refine ⟨_, hres, rfl, rfl, rfl, hlen, hbefore, ?_, ?_⟩
  · intro j hj
    apply hbeyond
    rw [List.length_drop]
    omega
  · intro j hj hjc
    rw [hfrom j hj hjc]
    simp only
    rw [List.getElem?_append_right (by omega), hblen]

/-- C8: for a laid-out sequence of `N` rendered elements and an index `i < N`,
`redrawSystem i` succeeds, keeps the length `N`, leaves every element at an
index `k < i` the same object at the same position with the same caret region,
puts the new rendering of system `i` at index `i`, and keeps every element
after `i` the same object, only moved. -/
theorem redrawSystem_frame {R : Type} [Zero R] [Add R] [OfNat R 50]
    (render : SystemRenderer R) (area : ScoreArea R) (i : Nat)
    (hi : i < area.myRenderedSystems.length) (hdoc : i < area.myDocument.length) :
    ∃ area', redrawSystem render area i = some area' ∧
      area'.myRenderedSystems.length = area.myRenderedSystems.length ∧
      (∀ k, k < i →
        area'.myRenderedSystems[k]? = area.myRenderedSystems[k]? ∧
        area'.myCaretPainter.systemRects[k]? = area.myCaretPainter.systemRects[k]?) ∧
      (∃ y, area'.myRenderedSystems[i]? =
        (area.myDocument[i]?).map
          (fun system => (render system i area.myViewType).setPos 0 y)) ∧
      (∀ j, i < j → ∃ y, area'.myRenderedSystems[j]? =
        (area.myRenderedSystems[j]?).map (fun s => s.setPos 0 y)) := by
  obtain ⟨area', hres, hsys, _, _, _, hcaret, _, _⟩ := redrawSystem_spec render area i hi hdoc
  have hblen : (area.myRenderedSystems.take i).length = i := by
    rw [List.length_take]
    omega
  refine ⟨area', hres, ?_, ?_, ?_, ?_⟩
  · rw [hsys, List.length_append, stackFrom_length, hblen, List.length_cons, List.length_drop]
    omega
  · intro k hk
    refine ⟨?_, hcaret k hk⟩
    rw [hsys, List.getElem?_append_left (by omega), List.getElem?_take_of_lt hk]
  · refine ⟨startHeight (area.myRenderedSystems.take i), ?_⟩
    rw [hsys, List.getElem?_append_right (by omega), hblen, Nat.sub_self,
      List.getElem?_eq_getElem hdoc]
    simp [stackFrom]
  · intro j hj
    rw [hsys, List.getElem?_append_right (by omega), hblen, stackFrom_getElem?_endHeight]
    have hsub : j - i = (j - (i + 1)) + 1 := by omega
    rw [hsub, List.getElem?_cons_succ, List.getElem?_drop]
    have hidx : i + 1 + (j - (i + 1)) = j := by omega
    rw [hidx]
    exact ⟨_, rfl⟩

/-- C8, witness: redrawing index 2 of a five-system layout leaves systems 0 and
1 identical, with their caret regions. -/
theorem redrawSystem_frame_witness :
    (2 < exampleArea.myRenderedSystems.length ∧ 2 < exampleArea.myDocument.length) ∧
    ∃ area', redrawSystem exampleRenderer exampleArea 2 = some area' ∧
      area'.myRenderedSystems.length = exampleArea.myRenderedSystems.length ∧
      (∀ k, k < 2 →
        area'.myRenderedSystems[k]? = exampleArea.myRenderedSystems[k]? ∧
        area'.myCaretPainter.systemRects[k]? = exampleArea.myCaretPainter.systemRects[k]?) ∧
      (∃ y, area'.myRenderedSystems[2]? =
        (exampleArea.myDocument[2]?).map
          (fun system => (exampleRenderer system 2 exampleArea.myViewType).setPos 0 y)) ∧
      (∀ j, 2 < j → ∃ y, area'.myRenderedSystems[j]? =
        (exampleArea.myRenderedSystems[j]?).map (fun s => s.setPos 0 y)) :=
  ⟨⟨by decide, by decide⟩,
    redrawSystem_frame exampleRenderer exampleArea 2 (by decide) (by decide)⟩

/-- C9, as stated, fails for the elements after `i`: they are placed at the
running height of the loop, which is not the bottom edge of the element before
plus 50. First, three elements 100.5 high whose bounding rectangle starts at
-0.25 are laid out at 0, 150.5, 301; after `redrawSystem(1)` the offsets are
0, 150.25, 300.75, and element 2 is at 300.75 although the bottom edge of
element 1 plus 50 is 300.5 (no addition rounds here). Second, four elements
9.7 high with the bounding rectangle at the origin are laid out; after
`redrawSystem(0)` element 3 is at 179.10000000000002 although the bottom edge
of element 2 plus 50, `(119.4 + 9.7) + 50`, is 179.09999999999999. Each pair
is the offset of an element and its bottom edge plus 50. -/
theorem redrawSystem_offsets_counterexample :
    (renderThenRedraw (uniformRenderer raisedRect) (freshDocument 3) ViewType.GuitarView 1).map
        (fun area => area.myRenderedSystems.map
          (fun s => (s.y, s.sceneBoundingRect.bottom + 50))) =
      some [(⟨0, 0⟩, ⟨601, -2⟩), (⟨601, -2⟩, ⟨601, -1⟩), (⟨1203, -2⟩, ⟨451, 0⟩)] ∧
    (⟨1203, -2⟩ : Double) ≠ ⟨601, -1⟩ ∧
    (renderThenRedraw (uniformRenderer nineSevenRect) (freshDocument 4) ViewType.GuitarView
        0).map
        (fun area => area.myRenderedSystems.map
          (fun s => (s.y, s.sceneBoundingRect.bottom + 50))) =
      some [(⟨0, 0⟩, ⟨4201014027406541, -46⟩),
        (⟨4201014027406541, -46⟩, ⟨4201014027406541, -45⟩),
        (⟨4201014027406541, -45⟩, ⟨6301521041109811, -45⟩),
        (⟨1575380260277453, -43⟩, ⟨4201014027406541, -44⟩)] ∧
    (⟨1575380260277453, -43⟩ : Double) ≠ ⟨6301521041109811, -45⟩ := by
  decide

/-- C9, amended: after `redrawSystem i` on a laid-out sequence of `N` elements,
with `i < N`, the element before `i` is the one that was there; the new element
`i` has vertical offset 0 if `i = 0` and otherwise the bottom edge of element
`i - 1` plus 50; and every element `j` with `i < j < N` has the vertical offset
that the running height of the loop has reached, `offset (j - 1) +
(height (j - 1) + 50)`, where the height is the bounding height. -/
theorem redrawSystem_running_offsets {R : Type} [Zero R] [Add R] [OfNat R 50]
    (render : SystemRenderer R) (area : ScoreArea R) (i : Nat)
    (hi : i < area.myRenderedSystems.length) (hdoc : i < area.myDocument.length) :
    ∃ area', redrawSystem render area i = some area' ∧
      (0 < i → area'.myRenderedSystems[i - 1]? = area.myRenderedSystems[i - 1]?) ∧
      ∀ j, i ≤ j → j < area.myRenderedSystems.length →
        ∃ item, area'.myRenderedSystems[j]? = some item ∧
          item.x = 0 ∧
          (j = 0 → item.y = 0) ∧
          (0 < j → ∃ previous, area'.myRenderedSystems[j - 1]? = some previous ∧
            (j = i → item.y = previous.sceneBoundingRect.bottom + 50) ∧
            (i < j → item.y = previous.y + (previous.boundingRect.height + 50))) := by
  obtain ⟨area', hres, hsys, _, _, _, _, _, _⟩ := redrawSystem_spec render area i hi hdoc
  have hblen : (area.myRenderedSystems.take i).length = i := by
    rw [List.length_take]
    omega
  have hprev : 0 < i →
      area'.myRenderedSystems[i - 1]? = area.myRenderedSystems[i - 1]? := by
    intro hpos
    rw [hsys, List.getElem?_append_left (by omega), List.getElem?_take_of_lt (by omega)]
  refine ⟨area', hres, hprev, ?_⟩
  intro j hij hj
  have hslen : (stackFrom (startHeight (area.myRenderedSystems.take i))
      (render area.myDocument[i] i area.myViewType ::
        area.myRenderedSystems.drop (i + 1))).length =
      area.myRenderedSystems.length - i := by
    rw [stackFrom_length, List.length_cons, List.length_drop]
    omega
  have hat : ∀ m, i ≤ m → area'.myRenderedSystems[m]? =
      (stackFrom (startHeight (area.myRenderedSystems.take i))
        (render area.myDocument[i] i area.myViewType ::
          area.myRenderedSystems.drop (i + 1)))[m - i]? := by
    intro m hm
    rw [hsys, List.getElem?_append_right (by omega), hblen]
  have hjlt : j - i < (stackFrom (startHeight (area.myRenderedSystems.take i))
      (render area.myDocument[i] i area.myViewType ::
        area.myRenderedSystems.drop (i + 1))).length := by
    rw [hslen]
    omega
  obtain ⟨item, hitem⟩ : ∃ item,
      (stackFrom (startHeight (area.myRenderedSystems.take i))
        (render area.myDocument[i] i area.myViewType ::
          area.myRenderedSystems.drop (i + 1)))[j - i]? = some item :=
    ⟨_, List.getElem?_eq_getElem hjlt⟩
  refine ⟨item, (hat j hij).trans hitem, ?_⟩
  rcases Nat.eq_or_lt_of_le hij with heq | hlt
  · subst heq
    rw [Nat.sub_self] at hitem
    obtain ⟨hx, hy⟩ := stackFrom_head _ _ _ hitem
    refine ⟨hx, ?_, ?_⟩
    · intro h0
      subst h0
      rw [hy]
      simp [startHeight]
    · intro hpos
      have hlast : (area.myRenderedSystems.take i).getLast? =
          area.myRenderedSystems[i - 1]? := by
        rw [List.getLast?_eq_getElem?, hblen, List.getElem?_take_of_lt (by omega)]
      have hex : i - 1 < area.myRenderedSystems.length := by omega
      obtain ⟨previous, hprevious⟩ : ∃ previous,
          area.myRenderedSystems[i - 1]? = some previous :=
        ⟨_, List.getElem?_eq_getElem hex⟩
      refine ⟨previous, (hprev hpos).trans hprevious, fun _ => ?_,
        fun h => absurd h (Nat.lt_irrefl _)⟩
      rw [hy]
      unfold startHeight
      rw [hlast, hprevious]
      rfl
  · have hplt : j - 1 - i < (stackFrom (startHeight (area.myRenderedSystems.take i))
        (render area.myDocument[i] i area.myViewType ::
          area.myRenderedSystems.drop (i + 1))).length := by
      rw [hslen]
      omega
    obtain ⟨previous, hprevious⟩ : ∃ previous,
        (stackFrom (startHeight (area.myRenderedSystems.take i))
          (render area.myDocument[i] i area.myViewType ::
            area.myRenderedSystems.drop (i + 1)))[j - 1 - i]? = some previous :=
      ⟨_, List.getElem?_eq_getElem hplt⟩
    have hsub : j - i = (j - 1 - i) + 1 := by omega
    rw [hsub] at hitem
    obtain ⟨hx, hy⟩ := stackFrom_chain _ _ _ _ _ hprevious hitem
    refine ⟨hx, fun h0 => absurd h0 (by omega), fun _ => ⟨previous, ?_, ?_, ?_⟩⟩
    · exact (hat (j - 1) (by omega)).trans hprevious
    · intro h
      omega
    · intro _
      rw [hy]
      rfl

/-- C9, witness of the amended claim: redrawing index 2 of the five-system
layout, whose system 2 is now 150 units high, puts systems 2, 3 and 4 at
offsets 300, 500 and 650. -/
theorem redrawSystem_running_offsets_witness :
    (redrawSystem exampleRenderer exampleArea 2).map
        (fun a => a.myRenderedSystems.map (fun s => (s.boundingRect.height, s.y))) =
      some [(100, 0), (100, 150), (150, 300), (100, 500), (100, 650)] ∧
    ∃ area', redrawSystem exampleRenderer exampleArea 2 = some area' ∧
      (0 < 2 → area'.myRenderedSystems[2 - 1]? = exampleArea.myRenderedSystems[2 - 1]?) ∧
      ∀ j, 2 ≤ j → j < exampleArea.myRenderedSystems.length →
        ∃ item, area'.myRenderedSystems[j]? = some item ∧
          item.x = 0 ∧
          (j = 0 → item.y = 0) ∧
          (0 < j → ∃ previous, area'.myRenderedSystems[j - 1]? = some previous ∧
            (j = 2 → item.y = previous.sceneBoundingRect.bottom + 50) ∧
            (2 < j → item.y = previous.y + (previous.boundingRect.height + 50))) :=
  ⟨by
      simp [redrawSystem, exampleArea, exampleRenderer, placedItem, shiftStep,
        List.range', QGraphicsItem.setPos, QGraphicsItem.boundingRect,
        QGraphicsItem.sceneBoundingRect, QRectF.bottom, QRectF.translated, SYSTEM_SPACING,
        System.new, System.insertStaff]
      norm_num,
    redrawSystem_running_offsets exampleRenderer exampleArea 2 (by decide) (by decide)⟩

/-! ### Sentinel barlines and lookups -/

/-- C11, as stated, fails: the freshly constructed system has both sentinel
barlines, `-1` is a valid `int`, and `getPreviousBarline(-1)` is `NULL`. -/
theorem getPreviousBarline_none_counterexample :
    System.new.HasSentinels ∧ IsInt (-1) ∧ System.new.getPreviousBarline (-1) = none := by
  decide

/-- C11, amended: on a system whose barlines contain the start barline at
position 0 and the end barline at position `INT_MAX`, `getPreviousBarline`
returns a barline, at a position `<= p`, for every query position `p >= 0`. -/
theorem getPreviousBarline_some_of_nonneg (sys : System) (p : Int)
    (hsent : sys.HasSentinels) (hp : 0 ≤ p) :
    ∃ r, sys.getPreviousBarline p = some r ∧ r ∈ sys.getBarlines ∧ r.getPosition ≤ p := by
  obtain ⟨⟨b, hb, hb0⟩, _⟩ := hsent
  cases hres : sys.getPreviousBarline p with
  | none =>
    unfold System.getPreviousBarline at hres
    rw [List.find?_eq_none] at hres
    have := hres b (List.mem_reverse.mpr hb)
    simp [hb0, hp] at this
  | some r =>
    unfold System.getPreviousBarline at hres
    refine ⟨r, rfl, ?_, ?_⟩
    · exact List.mem_reverse.mp (List.mem_of_find?_eq_some hres)
    · simpa using List.find?_some hres

/-- C11, witness: on the freshly constructed system the barline before
position 5 is the start barline. -/
theorem getPreviousBarline_some_of_nonneg_witness :
    System.new.getPreviousBarline 5 = some Barline.default ∧
    ∃ r, System.new.getPreviousBarline 5 = some r ∧ r ∈ System.new.getBarlines ∧
      r.getPosition ≤ 5 :=
  ⟨by decide, getPreviousBarline_some_of_nonneg System.new 5 (by decide) (by decide)⟩

/-- C17: on a system whose barlines contain a barline at position `INT_MAX`,
`getNextBarline p` returns a barline, at a position `>= p`, for every query
position `p` that an `int` can hold. -/
theorem getNextBarline_some (sys : System) (p : Int)
    (hend : ∃ b ∈ sys.getBarlines, b.getPosition = INT_MAX) (hp : IsInt p) :
    ∃ r, sys.getNextBarline p = some r ∧ r ∈ sys.getBarlines ∧ r.getPosition ≥ p := by
  obtain ⟨b, hb, hbmax⟩ := hend
  cases hres : sys.getNextBarline p with
  | none =>
    unfold System.getNextBarline at hres
    rw [List.find?_eq_none] at hres
    have := hres b hb
    simp [hbmax, hp.2] at this
  | some r =>
    unfold System.getNextBarline at hres
    refine ⟨r, rfl, List.mem_of_find?_eq_some hres, ?_⟩
    simpa using List.find?_some hres

/-- C17, witness: on the freshly constructed system the barline after position
5 is the end barline, and so is the one after `INT_MAX`. -/
theorem getNextBarline_some_witness :
    System.new.getNextBarline 5 = some (Barline.default.setPosition INT_MAX) ∧
    System.new.getNextBarline INT_MAX = some (Barline.default.setPosition INT_MAX) ∧
    ∃ r, System.new.getNextBarline 5 = some r ∧ r ∈ System.new.getBarlines ∧
      r.getPosition ≥ 5 :=
  ⟨by decide, by decide, getNextBarline_some System.new 5 (by decide) (by decide)⟩

/-! ### Staves -/

/-- Dropping the elements equal to `s` keeps all of a list without `s`. -/
theorem filter_ne_eq_self {α : Type} [DecidableEq α] (xs : List α) (s : α)
    (h : s ∉ xs) : xs.filter (fun t => decide (t ≠ s)) = xs := by
  rw [List.filter_eq_self]
  intro t ht
  have hne : t ≠ s := fun heq => h (heq ▸ ht)
  simp [hne]

/-- Dropping the elements equal to `s` keeps the number of occurrences of any
other element. -/
theorem count_filter_ne {α : Type} [DecidableEq α] (xs : List α) (s t : α)
    (hts : t ≠ s) : (xs.filter (fun u => decide (u ≠ s))).count t = xs.count t := by
  induction xs with
  | nil => rfl
  | cons x rest ih =>
    simp only [ne_eq, decide_not] at ih ⊢
    by_cases hx : x = s
    · subst hx
      have hxt : x ≠ t := fun h => hts h.symm
      simp [List.filter_cons, List.count_cons, hxt, ih]
    · simp [List.filter_cons, hx, List.count_cons, ih]

/-- Dropping the elements equal to `s` shortens a list by the number of
occurrences of `s`. -/
theorem length_filter_ne {α : Type} [DecidableEq α] (xs : List α) (s : α) :
    (xs.filter (fun u => decide (u ≠ s))).length + xs.count s = xs.length := by
  induction xs with
  | nil => rfl
  | cons x rest ih =>
    simp only [ne_eq, decide_not] at ih ⊢
    by_cases hx : x = s
    · subst hx
      simp [List.filter_cons]
      omega
    · simp [List.filter_cons, hx, List.count_cons]
      omega

/-- When `s` occurs exactly once, dropping the elements equal to `s` is the
erasure of its first occurrence. -/
theorem filter_ne_eq_erase {α : Type} [DecidableEq α] (xs : List α) (s : α)
    (h : xs.count s = 1) : xs.filter (fun u => decide (u ≠ s)) = xs.erase s := by
  induction xs with
  | nil => simp at h
  | cons x rest ih =>
    by_cases hx : x = s
    · subst hx
      have hrest : x ∉ rest := by
        intro hmem
        have := List.count_pos_iff.mpr hmem
        simp at h
        omega
      have hself := filter_ne_eq_self rest x hrest
      simp only [ne_eq, decide_not] at hself ⊢
      simp [List.filter_cons, hself]
    · have hcount : rest.count s = 1 := by
        simpa [List.count_cons, hx] using h
      have hsx : ¬ (x == s) = true := by simpa using hx
      have ih2 := ih hcount
      rw [List.erase_cons, if_neg hsx]
      simp only [ne_eq, decide_not] at ih2 ⊢
      simp [List.filter_cons, hx, ih2]

/-- The loop of `std::remove` with a value outside the vector: once the
positions before `pre.length + junk.length` have been read, with the kept
staves `pre` in front, the loop leaves `pre` followed by the staves of `rest`
that differ from the value. -/
theorem removeLoop_external (s : Staff) (rest pre junk : List Staff) (hjunk : junk ≠ []) :
    ((List.range' (pre.length + junk.length) rest.length).foldl
        (removeStep (.external s))
        { staves := pre ++ junk ++ rest, first := pre.length }).staves.take
      ((List.range' (pre.length + junk.length) rest.length).foldl
        (removeStep (.external s))
        { staves := pre ++ junk ++ rest, first := pre.length }).first =
      pre ++ rest.filter (fun t => decide (t ≠ s)) := by
  induction rest generalizing pre junk with
  | nil => simp
  | cons x r ih =>
    have hget : (pre ++ junk ++ x :: r)[pre.length + junk.length]? = some x := by
      rw [List.getElem?_append_right (by simp)]
      simp
    simp only [List.length_cons, List.range'_succ, List.foldl_cons]
    by_cases hx : x = s
    · have hstep : removeStep (.external s)
          { staves := pre ++ junk ++ x :: r, first := pre.length } (pre.length + junk.length) =
          { staves := pre ++ (junk ++ [x]) ++ r, first := pre.length } := by
        simp only [removeStep, hget, StaffRef.read]
        rw [if_pos (by rw [hx])]
        simp
      rw [hstep]
      have := ih pre (junk ++ [x]) (by simp)
      simp only [List.length_append, List.length_singleton, ← Nat.add_assoc] at this
      rw [this]
      simp [hx]
    · obtain ⟨j, js, rfl⟩ := List.exists_cons_of_ne_nil hjunk
      have hset : (pre ++ (j :: js) ++ x :: r).set pre.length x =
          (pre ++ [x]) ++ (js ++ [x]) ++ r := by
        rw [List.append_assoc, List.set_append_right _ _ (le_refl _)]
        simp
      have hstep : removeStep (.external s)
          { staves := pre ++ (j :: js) ++ x :: r, first := pre.length }
          (pre.length + (j :: js).length) =
          { staves := (pre ++ [x]) ++ (js ++ [x]) ++ r, first := (pre ++ [x]).length } := by
        simp only [removeStep, hget, StaffRef.read]
        rw [if_neg (by simpa using hx), hset]
        simp
      rw [hstep]
      have := ih (pre ++ [x]) (js ++ [x]) (by simp)
      have hlen : (pre ++ [x]).length + (js ++ [x]).length =
          pre.length + (j :: js).length + 1 := by
        simp
        omega
      rw [hlen] at this
      rw [this]
      simp [hx]

/-- Either no element satisfies `p` and `findIdx` is the length, or the list
splits at `findIdx` into a prefix without such elements and the first one. -/
theorem findIdx_split {α : Type} (p : α → Bool) (l : List α) :
    (l.findIdx p = l.length ∧ ∀ x ∈ l, p x = false) ∨
    ∃ pre x rest, l = pre ++ x :: rest ∧ l.findIdx p = pre.length ∧ p x = true ∧
      ∀ y ∈ pre, p y = false := by
  induction l with
  | nil => exact Or.inl ⟨rfl, by simp⟩
  | cons a l ih =>
    rw [List.findIdx_cons]
    cases hpa : p a with
    | true =>
      exact Or.inr ⟨[], a, l, rfl, by simp, hpa, by simp⟩
    | false =>
      rcases ih with ⟨hlen, hall⟩ | ⟨pre, x, rest, hl, hidx, hpx, hpre⟩
      · refine Or.inl ⟨by simp [hlen], ?_⟩
        intro y hy
        rcases List.mem_cons.mp hy with h | h
        · rw [h]; exact hpa
        · exact hall y h
      · refine Or.inr ⟨a :: pre, x, rest, by rw [hl]; rfl, by simp [hidx], hpx, ?_⟩
        intro y hy
        rcases List.mem_cons.mp hy with h | h
        · rw [h]; exact hpa
        · exact hpre y h

/-- With a value outside the vector, `std::remove` followed by `erase` keeps
exactly the staves that differ from the value, in their order. -/
theorem stdRemove_external (staves : List Staff) (s : Staff) :
    (stdRemove staves (.external s)).staves.take (stdRemove staves (.external s)).first =
      staves.filter (fun t => decide (t ≠ s)) := by
  unfold stdRemove
  simp only [StaffRef.read]
  rcases findIdx_split (fun staff => decide (some staff = some s)) staves with
    ⟨hlen, hall⟩ | ⟨pre, x, rest, hl, hidx, hpx, hpre⟩
  · simp only [hlen, if_true, List.take_length]
    symm
    rw [List.filter_eq_self]
    intro t ht
    have := hall t ht
    simpa using this
  · have hxs : x = s := by simpa using hpx
    have hne : ¬ pre.length = staves.length := by
      rw [hl]
      simp
    have hcount : staves.length - (pre.length + 1) = rest.length := by
      rw [hl]
      simp
      omega
    have hpref : pre.filter (fun t => decide (t ≠ s)) = pre := by
      rw [List.filter_eq_self]
      intro t ht
      have := hpre t ht
      simpa using this
    have hrhs : staves.filter (fun t => decide (t ≠ s)) =
        pre ++ rest.filter (fun t => decide (t ≠ s)) := by
      rw [hl, List.filter_append, hpref, List.filter_cons]
      simp [hxs]
    simp only [hidx, hne, if_false, hcount]
    have hloop := removeLoop_external s rest pre [x] (by simp)
    simp only [List.length_singleton] at hloop
    rw [hrhs, hl, show pre ++ x :: rest = pre ++ [x] ++ rest by simp, hloop]

/-- Called with a staff object outside the system, `removeStaff` succeeds and
keeps exactly the staves that differ from it, in their order; the other
members of the system are untouched. -/
theorem removeStaff_external (sys : System) (s : Staff) :
    sys.removeStaff (.external s) =
      some { sys with myStaves := sys.myStaves.filter (fun t => decide (t ≠ s)) } := by
  unfold System.removeStaff
  simp only [StaffRef.read, stdRemove_external]

/-- When the last staff is the first one equal to the value read through the
reference, `std::remove` stops at it without a single loop iteration, and
`erase` drops just that staff; this covers a reference to the last staff. -/
theorem stdRemove_last (staves : List Staff) (s : Staff) (ref : StaffRef)
    (hread : ref.read (staves ++ [s]) = some s) (hnot : s ∉ staves) :
    (stdRemove (staves ++ [s]) ref).staves.take (stdRemove (staves ++ [s]) ref).first =
      staves := by
  have hidx : (staves ++ [s]).findIdx (fun staff => decide (some staff = some s)) =
      staves.length := by
    rw [List.findIdx_append]
    have hnone : staves.findIdx (fun staff => decide (some staff = some s)) =
        staves.length := by
      apply List.findIdx_eq_length_of_false
      intro x hx
      have hne : x ≠ s := fun h => hnot (h ▸ hx)
      simpa using hne
    rw [hnone, if_neg (Nat.lt_irrefl _)]
    simp [List.findIdx_cons]
  unfold stdRemove
  simp only [hread, hidx]
  simp

/-- C12, as stated, fails: with staves of contents 7, 8, 7 the staff of content
7 occurs twice, and `removeStaff`, called with a separate staff object of
content 7, leaves only the staff of content 8, not the sequence 8, 7 that
erasing the first occurrence leaves. -/
theorem removeStaff_first_only_counterexample :
    2 ≤ exampleDuplicateStaves.getStaves.count ⟨7⟩ ∧
    (exampleDuplicateStaves.removeStaff (.external ⟨7⟩)).map System.getStaves =
      some [⟨8⟩] ∧
    exampleDuplicateStaves.getStaves.erase ⟨7⟩ = [⟨8⟩, ⟨7⟩] ∧
    (exampleDuplicateStaves.removeStaff (.external ⟨7⟩)).map System.getStaves ≠
      some (exampleDuplicateStaves.getStaves.erase ⟨7⟩) := by
  decide

/-- C12, amended: called with a staff object `s` that is not an element of the
system's own staves, `removeStaff` succeeds and removes every staff
structurally equal to `s`, so none is left and the sequence is shorter by their
number, while every other staff keeps its number of occurrences and the
relative order is kept; when exactly one staff equals `s`, that staff is
removed, which is the erasure of the first occurrence. -/
theorem removeStaff_removes_all (sys : System) (s : Staff) :
    ∃ removed, sys.removeStaff (.external s) = some removed ∧
      s ∉ removed.getStaves ∧
      removed.getStaves.length + sys.getStaves.count s = sys.getStaves.length ∧
      (∀ t, t ≠ s → removed.getStaves.count t = sys.getStaves.count t) ∧
      removed.getStaves.Sublist sys.getStaves ∧
      (sys.getStaves.count s = 1 → removed.getStaves = sys.getStaves.erase s) := by
  refine ⟨_, removeStaff_external sys s, ?_, length_filter_ne _ s,
    fun t ht => count_filter_ne _ s t ht, List.filter_sublist _,
    fun h => filter_ne_eq_erase _ s h⟩
  simp [System.getStaves, List.mem_filter]

/-- C12, witness of the amended claim on the staves of contents 7, 8, 7; the
staff of content 8 occurs once and removing it erases just that staff. -/
theorem removeStaff_removes_all_witness :
    (exampleDuplicateStaves.removeStaff (.external ⟨8⟩)).map System.getStaves =
      some [⟨7⟩, ⟨7⟩] ∧
    ∃ removed, exampleDuplicateStaves.removeStaff (.external ⟨7⟩) = some removed ∧
      (⟨7⟩ : Staff) ∉ removed.getStaves ∧
      removed.getStaves.length + exampleDuplicateStaves.getStaves.count ⟨7⟩ =
        exampleDuplicateStaves.getStaves.length ∧
      (∀ t, t ≠ (⟨7⟩ : Staff) →
        removed.getStaves.count t = exampleDuplicateStaves.getStaves.count t) ∧
      removed.getStaves.Sublist exampleDuplicateStaves.getStaves ∧
      (exampleDuplicateStaves.getStaves.count ⟨7⟩ = 1 →
        removed.getStaves = exampleDuplicateStaves.getStaves.erase ⟨7⟩) :=
  ⟨by decide, removeStaff_removes_all exampleDuplicateStaves ⟨7⟩⟩

/-- C18, the code at the failing input: on staves of contents 7, 8, 8, 7,
`removeStaff` called with a reference to the system's own first staff leaves
the staves 8, 7. The staves not equal to the staff referred to are 8, 8: one
staff of content 8 has been dropped and one of content 7 kept, because the
reference reads 8 once position 0 has been overwritten. Called with a separate
object of content 7 the same system is left with 8, 8; the barlines, tempo
markers and alternate endings are untouched in both cases. -/
theorem removeStaff_aliased_failing_input :
    (StaffRef.element 0).read exampleAliasedStaves.getStaves = some ⟨7⟩ ∧
    exampleAliasedStaves.getStaves.filter (fun t => decide (t ≠ ⟨7⟩)) = [⟨8⟩, ⟨8⟩] ∧
    (exampleAliasedStaves.removeStaff (.element 0)).map System.getStaves =
      some [⟨8⟩, ⟨7⟩] ∧
    (exampleAliasedStaves.removeStaff (.external ⟨7⟩)).map System.getStaves =
      some [⟨8⟩, ⟨8⟩] ∧
    (exampleAliasedStaves.removeStaff (.element 0)).map System.getBarlines =
      some exampleAliasedStaves.getBarlines := by
  decide

/-- C19: `insertStaff s` appends `s` at the end of the staff sequence, so the
existing staves keep their indices and order and `s` comes last; on a system
with no staff equal to `s`, `insertStaff s` followed by `removeStaff` of a
staff equal to `s`, be it a separate object or the staff just appended,
succeeds and restores the original staff sequence, and indeed the original
system. -/
theorem insertStaff_spec (sys : System) (s : Staff) :
    (sys.insertStaff s).getStaves = sys.getStaves ++ [s] ∧
    (∀ i : Nat, i < sys.getStaves.length →
      (sys.insertStaff s).getStaves[i]? = sys.getStaves[i]?) ∧
    (sys.insertStaff s).getStaves[sys.getStaves.length]? = some s ∧
    (s ∉ sys.getStaves →
      ∀ ref : StaffRef, ref.read (sys.insertStaff s).getStaves = some s →
        ((sys.insertStaff s).removeStaff ref).map System.getStaves = some sys.getStaves ∧
        (sys.insertStaff s).removeStaff ref = some sys) := by
  refine ⟨rfl, ?_, ?_, ?_⟩
  · intro i hi
    exact List.getElem?_append_left hi
  · simp [System.insertStaff, System.getStaves]
  · intro h ref hread
    have hback : (sys.insertStaff s).removeStaff ref = some sys := by
      unfold System.removeStaff
      simp only [System.insertStaff, System.getStaves] at hread ⊢
      rw [hread]
      simp only [stdRemove_last sys.myStaves s ref hread h]
    rw [hback]
    exact ⟨rfl, rfl⟩

/-- C19, witness: a staff of content 9 inserted into the staves of contents 7,
8, 7 comes fourth, and removing it again, through a separate object or through
a reference to the fourth staff, gives back the system. -/
theorem insertStaff_spec_witness :
    (exampleDuplicateStaves.insertStaff ⟨9⟩).getStaves = [⟨7⟩, ⟨8⟩, ⟨7⟩, ⟨9⟩] ∧
    (exampleDuplicateStaves.insertStaff ⟨9⟩).removeStaff (.external ⟨9⟩) =
      some exampleDuplicateStaves ∧
    (exampleDuplicateStaves.insertStaff ⟨9⟩).removeStaff (.element 3) =
      some exampleDuplicateStaves ∧
    ((exampleDuplicateStaves.insertStaff ⟨9⟩).getStaves =
      exampleDuplicateStaves.getStaves ++ [⟨9⟩] ∧
    (∀ i : Nat, i < exampleDuplicateStaves.getStaves.length →
      (exampleDuplicateStaves.insertStaff ⟨9⟩).getStaves[i]? =
        exampleDuplicateStaves.getStaves[i]?) ∧
    (exampleDuplicateStaves.insertStaff ⟨9⟩).getStaves[
      exampleDuplicateStaves.getStaves.length]? = some ⟨9⟩ ∧
    ((⟨9⟩ : Staff) ∉ exampleDuplicateStaves.getStaves →
      ∀ ref : StaffRef,
        ref.read (exampleDuplicateStaves.insertStaff ⟨9⟩).getStaves = some ⟨9⟩ →
        ((exampleDuplicateStaves.insertStaff ⟨9⟩).removeStaff ref).map System.getStaves =
          some exampleDuplicateStaves.getStaves ∧
        (exampleDuplicateStaves.insertStaff ⟨9⟩).removeStaff ref =
          some exampleDuplicateStaves)) :=
  ⟨by decide, by decide, by decide, insertStaff_spec exampleDuplicateStaves ⟨9⟩⟩

/-! ### The sentinel barlines under edits -/

/-- The members of a collection after a sorted insertion are the new element
and the old members. -/
theorem mem_insertObject {α : Type} [HasPosition α] (objects : List α) (obj x : α) :
    x ∈ insertObject objects obj ↔ x = obj ∨ x ∈ objects := by
  induction objects with
  | nil => simp [insertObject]
  | cons o rest ih =>
    unfold insertObject
    split
    · simp
    · rw [List.mem_cons, ih, List.mem_cons]
      tauto

/-- The members of a collection after a removal are the old members other than
the removed value. -/
theorem mem_removeObject {α : Type} [DecidableEq α] (objects : List α) (obj x : α) :
    x ∈ removeObject objects obj ↔ x ∈ objects ∧ x ≠ obj := by
  simp [removeObject, List.mem_filter]

/-- An edit that is not the removal of barline `b` keeps `b` in the system. -/
theorem applyEdit_keeps_barline (sys : System) (edit : SystemEdit) (b : Barline)
    (hb : b ∈ sys.myBarlines) (hedit : ∀ c, edit = .removeBarline c → c ≠ b) :
    b ∈ (sys.applyEdit edit).myBarlines := by
  cases edit with
  | insertBarline c =>
    exact (mem_insertObject sys.myBarlines c b).mpr (Or.inr hb)
  | removeBarline c =>
    exact (mem_removeObject sys.myBarlines c b).mpr ⟨hb, fun h => hedit c rfl h.symm⟩
  | removeStaff ref =>
    rw [applyEdit_removeStaff]
    exact hb
  | _ => exact hb

/-- Edits that spare both sentinel barlines keep them in the system. -/
theorem applyEdits_keeps_sentinels (edits : List SystemEdit) (sys : System)
    (hstart : Barline.default ∈ sys.myBarlines)
    (hend : Barline.default.setPosition INT_MAX ∈ sys.myBarlines)
    (hedits : ∀ e ∈ edits, e.sparesSentinels = true) :
    Barline.default ∈ (sys.applyEdits edits).myBarlines ∧
    Barline.default.setPosition INT_MAX ∈ (sys.applyEdits edits).myBarlines := by
  induction edits generalizing sys with
  | nil => exact ⟨hstart, hend⟩
  | cons e es ih =>
    have he : e.sparesSentinels = true := hedits e (List.mem_cons_self _ _)
    have hspare : ∀ c, e = .removeBarline c →
        c ≠ Barline.default ∧ c ≠ Barline.default.setPosition INT_MAX := by
      intro c hc
      subst hc
      simpa [SystemEdit.sparesSentinels] using he
    exact ih (sys.applyEdit e)
      (applyEdit_keeps_barline sys e _ hstart (fun c hc => (hspare c hc).1))
      (applyEdit_keeps_barline sys e _ hend (fun c hc => (hspare c hc).2))
      (fun e2 he2 => hedits e2 (List.mem_cons_of_mem _ he2))

/-- A list with two different members has at least two elements. -/
theorem two_le_length_of_mem {α : Type} (xs : List α) (a b : α) (ha : a ∈ xs)
    (hb : b ∈ xs) (hab : a ≠ b) : 2 ≤ xs.length := by
  match xs, ha, hb with
  | [x], ha, hb =>
    rw [List.mem_singleton] at ha hb
    exact absurd (ha.trans hb.symm) hab
  | _ :: _ :: _, _, _ => simp

/-- C13: starting from a freshly constructed System, after every finite
sequence of edits in which no `removeBarline` has an argument equal to the
start or to the end sentinel barline, the barlines still number at least two
and still contain the start sentinel, at position 0, and the end sentinel, at
position `INT_MAX`. -/
theorem sentinels_kept_after_edits (edits : List SystemEdit)
    (hedits : ∀ e ∈ edits, e.sparesSentinels = true) :
    2 ≤ (System.new.applyEdits edits).getBarlines.length ∧
    Barline.default ∈ (System.new.applyEdits edits).getBarlines ∧
    Barline.default.getPosition = 0 ∧
    Barline.default.setPosition INT_MAX ∈ (System.new.applyEdits edits).getBarlines ∧
    (Barline.default.setPosition INT_MAX).getPosition = INT_MAX ∧
    (System.new.applyEdits edits).HasSentinels := by
  obtain ⟨hstart, hend⟩ := applyEdits_keeps_sentinels edits System.new
    (by decide) (by decide) hedits
  exact ⟨two_le_length_of_mem _ _ _ hstart hend (by decide), hstart, rfl, hend, rfl,
    ⟨_, hstart, rfl⟩, ⟨_, hend, rfl⟩⟩

/-- C13, witness: after inserting barlines at 4 and 8 and removing the one at 4
the barlines are those at 0, 8 and `INT_MAX`. -/
theorem sentinels_kept_after_edits_witness :
    (System.new.applyEdits exampleBarlineEdits).getBarlines =
      [Barline.default, ⟨8, 0⟩, Barline.default.setPosition INT_MAX] ∧
    (2 ≤ (System.new.applyEdits exampleBarlineEdits).getBarlines.length ∧
    Barline.default ∈ (System.new.applyEdits exampleBarlineEdits).getBarlines ∧
    Barline.default.getPosition = 0 ∧
    Barline.default.setPosition INT_MAX ∈
      (System.new.applyEdits exampleBarlineEdits).getBarlines ∧
    (Barline.default.setPosition INT_MAX).getPosition = INT_MAX ∧
    (System.new.applyEdits exampleBarlineEdits).HasSentinels) :=
  ⟨by decide, sentinels_kept_after_edits exampleBarlineEdits (by decide)⟩

/-! ### Caret regions -/

/-- The method `redrawSystem` keeps the number of rendered systems. -/
theorem redrawSystem_length {R : Type} [Zero R] [Add R] [OfNat R 50]
    (render : SystemRenderer R) (area area2 : ScoreArea R) (i : Nat)
    (hi : i < area.myRenderedSystems.length) (hdoc : i < area.myDocument.length)
    (hres : redrawSystem render area i = some area2) :
    area2.myRenderedSystems.length = area.myRenderedSystems.length := by
  obtain ⟨area3, hres3, hsys, _⟩ := redrawSystem_spec render area i hi hdoc
  rw [hres] at hres3
  cases hres3
  rw [hsys, List.length_append, stackFrom_length, List.length_take, List.length_cons,
    List.length_drop]
  omega

/-- The method `redrawSystem` keeps the caret regions in step with the rendered
systems: when every caret region was the scene rectangle of its system before
the call, the same holds after it. -/
theorem redrawSystem_caret_sync {R : Type} [Zero R] [Add R] [OfNat R 50]
    (render : SystemRenderer R) (area area2 : ScoreArea R) (i : Nat)
    (hsync : area.CaretInSync)
    (hi : i < area.myRenderedSystems.length) (hdoc : i < area.myDocument.length)
    (hres : redrawSystem render area i = some area2) : area2.CaretInSync := by
  have hlen2 := redrawSystem_length render area area2 i hi hdoc hres
  obtain ⟨area3, hres3, hsys, _, _, hclen, hbelow, _, hfrom⟩ :=
    redrawSystem_spec render area i hi hdoc
  rw [hres] at hres3
  cases hres3
  unfold ScoreArea.CaretInSync at hsync ⊢
  have hcl : area.myCaretPainter.systemRects.length = area.myRenderedSystems.length := by
    rw [hsync, List.length_map]
  apply List.ext_getElem?
  intro j
  rw [List.getElem?_map]
  by_cases hji : j < i
  · rw [hbelow j hji, hsync, List.getElem?_map, hsys,
      List.getElem?_append_left (by rw [List.length_take]; omega),
      List.getElem?_take_of_lt hji]
  · by_cases hjn : j < area.myRenderedSystems.length
    · rw [hfrom j (by omega) (by omega)]
      obtain ⟨x, hx⟩ : ∃ x, area2.myRenderedSystems[j]? = some x :=
        ⟨_, List.getElem?_eq_getElem (by omega)⟩
      rw [hx]
      rfl
    · rw [List.getElem?_eq_none (by omega), List.getElem?_eq_none (by omega)]
      rfl

/-- C14: after `renderDocument` on `N` systems there are exactly `N` caret
regions and `N` rendered elements, and region `k` is the scene bounding
rectangle of element `k`; and whenever that holds, after `redrawSystem i` with
`i < N` there are still `N` regions, region `k` is the scene bounding rectangle
of the current element `k`, and the regions below `i` are unchanged. -/
theorem caret_regions_in_sync {R : Type} [Zero R] [Add R] [OfNat R 50]
    (render : SystemRenderer R) :
    (∀ (W : Nat) (document : List System) (view : ViewType), 1 ≤ W →
      ∃ area, renderDocument render W document view = some area ∧
        area.myCaretPainter.systemRects.length = document.length ∧
        area.myRenderedSystems.length = document.length ∧
        area.CaretInSync) ∧
    (∀ (area : ScoreArea R) (i : Nat), area.CaretInSync →
      i < area.myRenderedSystems.length → i < area.myDocument.length →
      ∃ area2, redrawSystem render area i = some area2 ∧
        area2.myCaretPainter.systemRects.length = area.myCaretPainter.systemRects.length ∧
        area2.myRenderedSystems.length = area.myRenderedSystems.length ∧
        area2.CaretInSync ∧
        (∀ k, k < i →
          area2.myCaretPainter.systemRects[k]? = area.myCaretPainter.systemRects[k]?)) := by
  constructor
  · intro W document view hW
    refine ⟨_, renderDocument_eq render W document view hW, ?_, ?_, rfl⟩
    · simp [stackFrom_length]
    · simp [stackFrom_length]
  · intro area i hsync hi hdoc
    obtain ⟨area2, hres, _, _, _, hclen, hbelow, _, _⟩ :=
      redrawSystem_spec render area i hi hdoc
    exact ⟨area2, hres, hclen, redrawSystem_length render area area2 i hi hdoc hres,
      redrawSystem_caret_sync render area area2 i hsync hi hdoc hres, hbelow⟩

/-- C14, witness: the five-system layout has its caret regions in step; after
redrawing system 2 the five regions are the scene rectangles of the elements
again. -/
theorem caret_regions_in_sync_witness :
    exampleArea.CaretInSync ∧
    (redrawSystem exampleRenderer exampleArea 2).map
        (fun a => a.myCaretPainter.systemRects.map (fun r => (r.y, r.height))) =
      some [(0, 100), (150, 100), (300, 150), (500, 100), (650, 100)] ∧
    (∃ area, renderDocument exampleRenderer 1 exampleDocument ViewType.GuitarView =
        some area ∧
      area.myCaretPainter.systemRects.length = exampleDocument.length ∧
      area.myRenderedSystems.length = exampleDocument.length ∧
      area.CaretInSync) ∧
    (∃ area2, redrawSystem exampleRenderer exampleArea 2 = some area2 ∧
      area2.myCaretPainter.systemRects.length =
        exampleArea.myCaretPainter.systemRects.length ∧
      area2.myRenderedSystems.length = exampleArea.myRenderedSystems.length ∧
      area2.CaretInSync ∧
      (∀ k, k < 2 →
        area2.myCaretPainter.systemRects[k]? =
          exampleArea.myCaretPainter.systemRects[k]?)) :=
  have hsync : exampleArea.CaretInSync := by
    simp [ScoreArea.CaretInSync, exampleArea, placedItem, QGraphicsItem.sceneBoundingRect,
      QGraphicsItem.boundingRect, QRectF.translated]
  ⟨hsync,
    by
      simp [redrawSystem, exampleArea, exampleRenderer, placedItem, shiftStep,
        List.range', QGraphicsItem.setPos, QGraphicsItem.boundingRect,
        QGraphicsItem.sceneBoundingRect, QRectF.bottom, QRectF.translated, SYSTEM_SPACING,
        System.new, System.insertStaff, CaretPainter.setSystemRect]
      norm_num,
    (caret_regions_in_sync exampleRenderer).1 1 exampleDocument ViewType.GuitarView
      (by decide),
    (caret_regions_in_sync exampleRenderer).2 exampleArea 2 hsync (by decide) (by decide)⟩

/-! ### The number of workers -/

/-- C15, as stated, fails: for an empty score and the single worker of the
source, `renderDocument` still dispatches one worker, which is more than the
number of systems. -/
theorem workers_clamped_counterexample :
    (workerRanges ([] : List System).length 1).length = 1 ∧
    ¬ (workerRanges ([] : List System).length 1).length ≤ ([] : List System).length := by
  decide

/-- C15, amended: `renderDocument` dispatches exactly `numThreads` workers
whatever the system count `N` is, without clamping; when `N` is 0 every worker
gets the empty range `[0, 0)` and visits no index, so that nothing is rendered
or stacked, and with at least one worker the call succeeds with an empty
element sequence and an empty caret-region list. -/
theorem workers_not_clamped {R : Type} [Zero R] [Add R] [OfNat R 50]
    (render : SystemRenderer R) (view : ViewType) (N W : Nat) :
    (workerRanges N W).length = W ∧
    (∀ w ∈ workerRanges 0 W, w = (0, 0) ∧ workerIndices w = []) ∧
    (1 ≤ W →
      renderDocument render W [] view =
        some { myRenderedSystems := [], myDocument := [], myViewType := view,
               myCaretPainter := { systemRects := [] } }) := by
  refine ⟨by simp [workerRanges], ?_, ?_⟩
  · intro w hw
    unfold workerRanges at hw
    obtain ⟨k, _, hk⟩ := List.mem_map.mp hw
    have hw0 : w = (0, 0) := by
      rw [← hk]
      simp [workerRange]
    exact ⟨hw0, by rw [hw0]; rfl⟩
  · intro hW
    rw [renderDocument_eq render W [] view hW]
    rfl

/-- C15, witness of the amended claim: two systems on five workers make five
workers, four of them with an empty range; an empty score on one worker gives
an empty layout. -/
theorem workers_not_clamped_witness :
    workerRanges 2 5 = [(0, 0), (0, 0), (0, 0), (0, 0), (0, 2)] ∧
    ((workerRanges 2 5).length = 5 ∧
    (∀ w ∈ workerRanges 0 5, w = (0, 0) ∧ workerIndices w = []) ∧
    (1 ≤ 5 →
      renderDocument exampleRenderer 5 [] ViewType.GuitarView =
        some { myRenderedSystems := [], myDocument := [],
               myViewType := ViewType.GuitarView,
               myCaretPainter := { systemRects := [] } })) :=
  ⟨by decide, workers_not_clamped exampleRenderer ViewType.GuitarView 2 5⟩

/-! ### Incremental reflow against the full layout -/

/-- Stacking a concatenation: the second part starts at the running height
that the loop has reached after the first. -/
theorem stackFrom_append {R : Type} [Zero R] [Add R] [OfNat R 50]
    (xs ys : List (QGraphicsItem R)) (height : R) :
    stackFrom height (xs ++ ys) =
      stackFrom height xs ++ stackFrom (endHeight height xs) ys := by
  induction xs generalizing height with
  | nil => simp [stackFrom, endHeight]
  | cons x rest ih =>
    rw [List.cons_append]
    simp only [stackFrom, endHeight]
    rw [ih]
    rfl

/-- Stacking forgets earlier positions: restacking a stacked run is stacking
the run. -/
theorem stackFrom_stackFrom {R : Type} [Zero R] [Add R] [OfNat R 50]
    (xs : List (QGraphicsItem R)) (h1 h2 : R) :
    stackFrom h1 (stackFrom h2 xs) = stackFrom h1 xs := by
  induction xs generalizing h1 h2 with
  | nil => rfl
  | cons x rest ih =>
    simp only [stackFrom]
    rw [show (x.setPos 0 h2).boundingRect = x.boundingRect from rfl, ih]
    rfl

/-- Stacking keeps the bounding heights, hence the running height after the
run. -/
theorem endHeight_stackFrom {R : Type} [Zero R] [Add R] [OfNat R 50]
    (xs : List (QGraphicsItem R)) (h1 h2 : R) :
    endHeight h1 (stackFrom h2 xs) = endHeight h1 xs := by
  induction xs generalizing h1 h2 with
  | nil => rfl
  | cons x rest ih =>
    simp only [stackFrom, endHeight]
    rw [show (x.setPos 0 h2).boundingRect = x.boundingRect from rfl, ih]

/-- The running height after a run and one more element. -/
theorem endHeight_concat {R : Type} [Add R] [OfNat R 50]
    (xs : List (QGraphicsItem R)) (x : QGraphicsItem R) (height : R) :
    endHeight height (xs ++ [x]) =
      endHeight height xs + (x.boundingRect.height + SYSTEM_SPACING) := by
  induction xs generalizing height with
  | nil => rfl
  | cons y rest ih =>
    rw [List.cons_append]
    simp only [endHeight]
    rw [ih]

/-- A prefix of a stacked run is the stacked prefix. -/
theorem take_stackFrom {R : Type} [Zero R] [Add R] [OfNat R 50]
    (xs : List (QGraphicsItem R)) (height : R) (n : Nat) :
    (stackFrom height xs).take n = stackFrom height (xs.take n) := by
  induction xs generalizing height n with
  | nil => simp [stackFrom]
  | cons x rest ih =>
    cases n with
    | zero => simp [stackFrom]
    | succ m => simp [stackFrom, ih]

/-- Below the first `i` elements of a run stacked from height 0, the height at
which `redrawSystem` starts is the running height of the layout loop as soon
as, for the last of these elements, the bottom edge plus the spacing is the
offset plus the sum of the bounding height and the spacing. -/
theorem startHeight_stackFrom {R : Type} [Zero R] [Add R] [OfNat R 50]
    (xs : List (QGraphicsItem R)) (i : Nat) (hi : i ≤ xs.length)
    (hseed : ∀ previous, 0 < i → (stackFrom 0 xs)[i - 1]? = some previous →
      previous.sceneBoundingRect.bottom + SYSTEM_SPACING =
        previous.y + (previous.boundingRect.height + SYSTEM_SPACING)) :
    startHeight ((stackFrom 0 xs).take i) = endHeight 0 (xs.take i) := by
  cases i with
  | zero => simp [startHeight, endHeight]
  | succ n =>
    have hn : n < xs.length := by omega
    have hprev : (stackFrom 0 xs)[n]? =
        some (xs[n].setPos 0 (endHeight 0 (xs.take n))) := by
      rw [stackFrom_getElem?_endHeight, List.getElem?_eq_getElem hn]
      rfl
    have hlast : ((stackFrom 0 xs).take (n + 1)).getLast? =
        some (xs[n].setPos 0 (endHeight 0 (xs.take n))) := by
      rw [List.getLast?_eq_getElem?, List.length_take, stackFrom_length,
        List.getElem?_take_of_lt (by omega)]
      have hmin : min (n + 1) xs.length - 1 = n := by omega
      rw [hmin, hprev]
    have htake : xs.take (n + 1) = xs.take n ++ [xs[n]] := by
      rw [List.take_succ, List.getElem?_eq_getElem hn]
      rfl
    have hs := hseed _ (Nat.succ_pos n) hprev
    unfold startHeight
    rw [hlast, htake, endHeight_concat]
    exact hs

/-- Restacking a stacked layout in which element `i` has been replaced: when
the start height of `redrawSystem` below the first `i` elements is the running
height of the layout loop, the elements before `i` stay where they are, and the
replacement and the elements after it are stacked below them from that start
height. -/
theorem stackFrom_set {R : Type} [Zero R] [Add R] [OfNat R 50]
    (xs : List (QGraphicsItem R)) (i : Nat) (x : QGraphicsItem R)
    (hi : i < (stackFrom 0 xs).length)
    (hstart : startHeight ((stackFrom 0 xs).take i) = endHeight 0 (xs.take i)) :
    stackFrom 0 ((stackFrom 0 xs).set i x) =
      (stackFrom 0 xs).take i ++
        stackFrom (startHeight ((stackFrom 0 xs).take i))
          (x :: (stackFrom 0 xs).drop (i + 1)) := by
  rw [hstart, List.set_eq_take_append_cons_drop, if_pos hi, stackFrom_append, take_stackFrom,
    stackFrom_stackFrom, endHeight_stackFrom]

/-- Without rounding, an element whose bounding rectangle has its top at the
item's origin has its bottom edge at its offset plus its bounding height, and
the start height taken from it by `redrawSystem` is the running height of the
layout loop. -/
theorem bottom_add_spacing (s : QGraphicsItem ℚ) (htop : s.boundingRect.y = 0) :
    s.sceneBoundingRect.bottom + 50 = s.y + (s.boundingRect.height + 50) := by
  simp only [QGraphicsItem.sceneBoundingRect, QRectF.translated, QRectF.bottom, htop]
  ring

/-- C16, as stated, fails: in binary64 arithmetic the incremental reflow and
the full rebuild differ in the last bit. Four elements 9.7 high, with the
bounding rectangle at the item's origin, are laid out by `renderDocument` at 0,
59.7, 119.4 and 179.10000000000002. Then `redrawSystem(3)`, with nothing
changed, puts element 3 and its caret region at `(119.4 + 9.7) + 50`, which is
179.09999999999999, whereas the full stacking pass over the elements with
element 3 replaced by its new rendering puts them at `119.4 + (9.7 + 50)`,
which is 179.10000000000002. -/
theorem redrawSystem_eq_full_layout_counterexample :
    (renderThenRedraw (uniformRenderer nineSevenRect) (freshDocument 4) ViewType.GuitarView
        3).map
        (fun area => (area.myRenderedSystems.map (fun s => s.y),
          area.myCaretPainter.systemRects.map (fun r => r.y))) =
      some ([⟨0, 0⟩, ⟨4201014027406541, -46⟩, ⟨4201014027406541, -45⟩,
          ⟨6301521041109811, -45⟩],
        [⟨0, 0⟩, ⟨4201014027406541, -46⟩, ⟨4201014027406541, -45⟩,
          ⟨6301521041109811, -45⟩]) ∧
    ((renderDocument (uniformRenderer nineSevenRect) 1 (freshDocument 4)
        ViewType.GuitarView).bind
        (fun area => layoutSystems
          ((area.myRenderedSystems.set 3
            (uniformRenderer nineSevenRect System.new 3 ViewType.GuitarView)).map some)
          0 { systemRects := [] })).map
        (fun full => (full.1.map (fun s => s.y), full.2.systemRects.map (fun r => r.y))) =
      some ([⟨0, 0⟩, ⟨4201014027406541, -46⟩, ⟨4201014027406541, -45⟩,
          ⟨1575380260277453, -43⟩],
        [⟨0, 0⟩, ⟨4201014027406541, -46⟩, ⟨4201014027406541, -45⟩,
          ⟨1575380260277453, -43⟩]) ∧
    (⟨6301521041109811, -45⟩ : Double) ≠ ⟨1575380260277453, -43⟩ := by
  decide

/-- C16, amended: incremental reflow agrees with a full rebuild when the start
height of `redrawSystem` is the running height of the layout. For every layout
produced by the stacking pass of `renderDocument` with its caret regions, and
every index `i < N` such that `i = 0` or, for element `i - 1` of the layout,
the bottom edge plus 50 is equal to the offset plus the sum of the bounding
height and 50, `redrawSystem i` succeeds and leaves exactly the elements,
vertical offsets and caret regions that the full stacking pass computes on the
same element sequence with element `i` replaced by the new rendering of
system `i`. -/
theorem redrawSystem_eq_full_layout_of_seed {R : Type} [Zero R] [Add R] [OfNat R 50]
    (render : SystemRenderer R) (elements : List (QGraphicsItem R)) (document : List System)
    (view : ViewType) (i : Nat)
    (hi : i < elements.length) (hdoc : i < document.length)
    (hseed : ∀ placed caret previous,
      layoutSystems (elements.map some) 0 { systemRects := [] } = some (placed, caret) →
      0 < i → placed[i - 1]? = some previous →
      previous.sceneBoundingRect.bottom + 50 =
        previous.y + (previous.boundingRect.height + 50)) :
    ∃ placed caret placed2 caret2,
      layoutSystems (elements.map some) 0 { systemRects := [] } = some (placed, caret) ∧
      layoutSystems ((placed.set i (render document[i] i view)).map some) 0
        { systemRects := [] } = some (placed2, caret2) ∧
      redrawSystem render
          { myRenderedSystems := placed, myDocument := document, myViewType := view,
            myCaretPainter := caret } i =
        some { myRenderedSystems := placed2, myDocument := document, myViewType := view,
               myCaretPainter := caret2 } := by
  refine ⟨_, _, _, _, layoutSystems_map_some elements 0 _, layoutSystems_map_some _ 0 _, ?_⟩
  have hi2 : i < (stackFrom 0 elements).length := by
    rw [stackFrom_length]
    exact hi
  have hstart : startHeight ((stackFrom 0 elements).take i) = endHeight 0 (elements.take i) :=
    startHeight_stackFrom elements i (by omega)
      (fun previous hpos hprev =>
        hseed _ _ previous (layoutSystems_map_some elements 0 _) hpos hprev)
  have hsync : ScoreArea.CaretInSync
      { myRenderedSystems := stackFrom 0 elements, myDocument := document,
        myViewType := view,
        myCaretPainter := { systemRects := [] ++
          (stackFrom 0 elements).map QGraphicsItem.sceneBoundingRect } } := by
    simp [ScoreArea.CaretInSync]
  obtain ⟨area2, hres, hsys, hd, hv, _⟩ := redrawSystem_spec render
    { myRenderedSystems := stackFrom 0 elements, myDocument := document,
      myViewType := view,
      myCaretPainter := { systemRects := [] ++
        (stackFrom 0 elements).map QGraphicsItem.sceneBoundingRect } } i hi2 hdoc
  have hsync2 := redrawSystem_caret_sync render _ area2 i hsync hi2 hdoc hres
  rw [hres]
  obtain ⟨items2, document2, view2, ⟨rects2⟩⟩ := area2
  simp only [ScoreArea.CaretInSync] at hsys hd hv hsync2
  subst hd hv hsync2
  rw [stackFrom_set _ _ _ hi2 hstart, ← hsys]
  simp

/-- C16, witness of the amended claim. Without rounding, three elements of
heights 100, 80, 80 with the bounding rectangle at the item's origin are laid
out at 0, 150, 280, where the bottom edge of element 0 plus 50 is the running
height 150; system 1 is then rendered 150 high, and the full pass over the
changed sequence, like the redraw of index 1, puts the elements at 0, 150,
350. In binary64 arithmetic, for the four elements 9.7 high the bottom edge of
element 1 plus 50, `(59.7 + 9.7) + 50`, is the running height
`59.7 + (9.7 + 50)`, and the redraw of index 2 agrees with the full pass. -/
theorem redrawSystem_eq_full_layout_of_seed_witness :
    (layoutSystems (exampleElements.map some) 0 { systemRects := [] }).map
        (fun r => r.1.map (fun t => (t.boundingRect.height, t.y))) =
      some [(100, 0), (80, 150), (80, 280)] ∧
    (layoutSystems
        (([placedItem 0 100 0, placedItem 0 80 150, placedItem 0 80 280].set 1
          (exampleRenderer exampleDocument[1] 1 ViewType.GuitarView)).map some) 0
        { systemRects := [] }).map
        (fun r => r.1.map (fun t => (t.boundingRect.height, t.y))) =
      some [(100, 0), (150, 150), (80, 350)] ∧
    (∃ placed caret placed2 caret2,
      layoutSystems (exampleElements.map some) 0 { systemRects := [] } =
        some (placed, caret) ∧
      layoutSystems
        ((placed.set 1 (exampleRenderer exampleDocument[1] 1 ViewType.GuitarView)).map some)
        0 { systemRects := [] } = some (placed2, caret2) ∧
      redrawSystem exampleRenderer
          { myRenderedSystems := placed, myDocument := exampleDocument,
            myViewType := ViewType.GuitarView, myCaretPainter := caret } 1 =
        some { myRenderedSystems := placed2, myDocument := exampleDocument,
               myViewType := ViewType.GuitarView, myCaretPainter := caret2 }) ∧
    ∃ placed caret placed2 caret2,
      layoutSystems (nineSevenElements.map some) 0 { systemRects := [] } =
        some (placed, caret) ∧
      layoutSystems
        ((placed.set 2
          (uniformRenderer nineSevenRect (freshDocument 4)[2] 2 ViewType.GuitarView)).map some)
        0 { systemRects := [] } = some (placed2, caret2) ∧
      redrawSystem (uniformRenderer nineSevenRect)
          { myRenderedSystems := placed, myDocument := freshDocument 4,
            myViewType := ViewType.GuitarView, myCaretPainter := caret } 2 =
        some { myRenderedSystems := placed2, myDocument := freshDocument 4,
               myViewType := ViewType.GuitarView, myCaretPainter := caret2 } :=
  ⟨by
      simp [layoutSystems, exampleElements, itemOfHeight, QGraphicsItem.setPos,
        QGraphicsItem.boundingRect, SYSTEM_SPACING]
      norm_num,
    by
      simp [layoutSystems, placedItem, exampleRenderer, exampleDocument,
        QGraphicsItem.setPos, QGraphicsItem.boundingRect, SYSTEM_SPACING, System.new,
        System.insertStaff]
      norm_num,
    redrawSystem_eq_full_layout_of_seed exampleRenderer exampleElements exampleDocument
      ViewType.GuitarView 1 (by decide) (by decide)
      (by
        intro placed caret previous hlayout _ hprevious
        apply bottom_add_spacing
        rw [layoutSystems_map_some] at hlayout
        cases hlayout
        change some ((itemOfHeight 100).setPos 0 0) = some previous at hprevious
        cases hprevious
        rfl),
    redrawSystem_eq_full_layout_of_seed (uniformRenderer nineSevenRect) nineSevenElements
      (freshDocument 4) ViewType.GuitarView 2 (by decide) (by decide)
      (by
        intro placed caret previous hlayout _ hprevious
        rw [layoutSystems_map_some] at hlayout
        cases hlayout
        have hall : ∀ s ∈ (stackFrom 0 nineSevenElements)[2 - 1]?,
            s.sceneBoundingRect.bottom + 50 = s.y + (s.boundingRect.height + 50) := by
          decide
        exact hall previous hprevious)⟩

end Score
